import Mathlib

/-!
Verification of the image-viewer core (src/app.py) against its
natural-language specification.

The Python source is shallowly embedded: the filesystem scan is modelled by
the list of relative path strings it produces (in scan order), directories by
an inductive tree, machine integers by `Nat`, and Python's `str` by `String`.
Python's `str.lower` is modelled by ASCII lowercasing (all paths handled by
the claims are ASCII).  The 30-second TTL caches in `sorted_image_paths` and
`build_hierarchy` memoize a single rebuild; the embedding models one rebuild,
which is what every claim is about.
-/

namespace ImageViewer

/-! ### String and number helpers -/

/-- Character-by-character map over a string, done on the underlying
character list so that proofs and kernel evaluation stay elementary. -/
def mapChars (f : Char → Char) (s : String) : String := String.mk (s.data.map f)

/-- ASCII lowercasing, the model of Python's `str.lower()` for the ASCII
paths this system handles. -/
def lowerStr (s : String) : String := mapChars Char.toLower s

/-- Replacement of every occurrence of one character by another, the model of
Python's `str.replace` with single-character arguments. -/
def replaceChar (s : String) (a b : Char) : String :=
  mapChars (fun c => if c = a then b else c) s

/-- Test whether `pat` occurs at the start of `s`, the model of Python's
`str.startswith` with one pattern. -/
def startsWithStr (s pat : String) : Bool := pat.data.isPrefixOf s.data

/-- Value of a list of decimal-digit characters, most significant first. -/
def digitsVal (l : List Char) : Nat :=
  l.foldl (fun acc c => acc * 10 + (c.toNat - 48)) 0

/-- Value of a decimal-digit string, the model of Python's `int()` applied to
a string of ASCII digits. -/
def strToNat (s : String) : Nat := digitsVal s.data

/-- Single decimal digit as a character. -/
def digitChar (n : Nat) : Char := Char.ofNat (48 + n % 10)

/-- Decimal digits of `n`, most significant first; `fuel` bounds the
recursion and any `fuel > n` is enough. -/
def natToDigits : Nat → Nat → List Char
  | 0, _ => []
  | fuel + 1, n =>
    if n < 10 then [digitChar n]
    else natToDigits fuel (n / 10) ++ [digitChar (n % 10)]

/-- Decimal rendering of a natural number, the model of Python's `str`/
f-string formatting of a nonnegative integer. -/
def natRepr (n : Nat) : String := String.mk (natToDigits (n + 1) n)

/-- Two-digit zero-padded rendering, the model of Python's `f"{n:02d}"` for
`0 ≤ n < 100`. -/
def pad2 (n : Nat) : String :=
  if n < 10 then "0" ++ natRepr n else natRepr n

/-- Test for an ASCII digit string (nonempty, all digits), the model of
Python's `str.isdigit` on the ASCII inputs at hand. -/
def isDigitStr (s : String) : Bool := !s.data.isEmpty && s.data.all Char.isDigit

/-! ### Date heuristics (src/app.py) -/

/-- Maximal runs of digit characters. -/
def digitRunsAux : List Char → List Char → List (List Char)
  | [], acc => if acc.isEmpty then [] else [acc.reverse]
  | c :: cs, acc =>
    if c.isDigit then digitRunsAux cs (c :: acc)
    else if acc.isEmpty then digitRunsAux cs []
    else acc.reverse :: digitRunsAux cs []

/-- Tokenization of a path into maximal digit runs: the model of
`[tok for tok in re.split(r"\D+", text) if tok]` (src/app.py line 262). -/
def digitTokens (s : String) : List String :=
  (digitRunsAux s.data []).map String.mk

/-- Month/day part of `_extract_date_value` (src/app.py lines 266-275): the
tokens after the year token are consumed as the zero-padded month string only
if the next token has 2 digits and value 1..12, and, nested below that, as
the day string only if the token after it has 2 digits and value 1..31;
missing components stay "00". -/
def dayTokenStr : List String → String
  | [] => "00"
  | d :: _ =>
    if d.length = 2 then
      let cd := strToNat d
      if 1 ≤ cd ∧ cd ≤ 31 then pad2 cd else "00"
    else "00"

def monthDayTokens : List String → String × String
  | [] => ("00", "00")
  | m :: rest2 =>
    if m.length = 2 then
      let cm := strToNat m
      if 1 ≤ cm ∧ cm ≤ 12 then (pad2 cm, dayTokenStr rest2)
      else ("00", "00")
    else ("00", "00")

/-- Loop of `_extract_date_value` (src/app.py lines 263-277): scan the tokens
for the first 4-digit token starting with "19" or "20" and return
`int(f"{year}{month}{day}")`. -/
def extractLoop : List String → Bool × Nat
  | [] => (false, 0)
  | token :: rest =>
    if token.length = 4 && (startsWithStr token "19" || startsWithStr token "20") then
      (true, strToNat (token ++ (monthDayTokens rest).1 ++ (monthDayTokens rest).2))
    else extractLoop rest

/-- Embedding of `_extract_date_value(rel_path)` (src/app.py lines 260-277). -/
def _extract_date_value (relPath : String) : Bool × Nat :=
  extractLoop (digitTokens relPath)

/-- Year-token test of the spec: a token of length 4 that starts with "19"
or "20". -/
def isYearToken (t : String) : Bool :=
  t.length = 4 && (startsWithStr t "19" || startsWithStr t "20")

/-- Month value per the spec's wording: the token immediately after the year
is consumed as the month only if it is a valid 2-digit month (1-12). -/
def specMonthVal (monthTok : String) : Nat :=
  if monthTok.length = 2 ∧ 1 ≤ strToNat monthTok ∧ strToNat monthTok ≤ 12 then
    strToNat monthTok
  else 0

/-- Day value per the spec's wording: a further 2-digit token is consumed as
the day only if the month was consumed and its value is 1-31. -/
def specDayVal (month : Nat) (dayTok : String) : Nat :=
  if month ≠ 0 ∧ dayTok.length = 2 ∧ 1 ≤ strToNat dayTok ∧ strToNat dayTok ≤ 31 then
    strToNat dayTok
  else 0

/-- Claim C5's wording of `extractDateValue` (spec §4.1): tokenize into
maximal digit runs; find the first year token; consume an immediately
following 2-digit token as the month only if its value is in 1..12, and then
a further 2-digit token as the day only if its value is in 1..31; missing
components are zero; the value is the integer `YYYYMMDD` with zero-padded
components. -/
def extractDateValueSpec (relPath : String) : Bool × Nat :=
  let tokens := digitTokens relPath
  match tokens.findIdx? isYearToken with
  | none => (false, 0)
  | some i =>
    let year := strToNat (tokens.getD i "")
    let month := specMonthVal (tokens.getD (i + 1) "")
    let day := specDayVal month (tokens.getD (i + 2) "")
    (true, year * 10000 + month * 100 + day)

/-! ### Arithmetic facts about the decimal helpers -/

theorem digitsVal_foldl (l : List Char) (a : Nat) :
    l.foldl (fun acc c => acc * 10 + (c.toNat - 48)) a =
      a * 10 ^ l.length + digitsVal l := by
  induction l generalizing a with
  | nil => simp [digitsVal]
  | cons c l ih =>
    simp only [List.foldl_cons, digitsVal, List.length_cons]
    rw [ih, ih (0 * 10 + (c.toNat - 48))]
    ring

theorem digitsVal_append (l₁ l₂ : List Char) :
    digitsVal (l₁ ++ l₂) = digitsVal l₁ * 10 ^ l₂.length + digitsVal l₂ := by
  simp only [digitsVal, List.foldl_append]
  rw [digitsVal_foldl]
  rfl

theorem strToNat_append (s t : String) :
    strToNat (s ++ t) = strToNat s * 10 ^ t.length + strToNat t := by
  simp only [strToNat, String.data_append, digitsVal_append]
  rfl

theorem charOfNat_digit_toNat : ∀ r < 10, (Char.ofNat (48 + r)).toNat = 48 + r := by
  decide

theorem charOfNat_digit_isDigit : ∀ r < 10, (Char.ofNat (48 + r)).isDigit = true := by
  decide

theorem digitChar_toNat {n : Nat} (h : n < 10) : (digitChar n).toNat = 48 + n := by
  have hm : n % 10 = n := Nat.mod_eq_of_lt h
  unfold digitChar
  rw [hm]
  exact charOfNat_digit_toNat n h

theorem digitChar_isDigit (n : Nat) : (digitChar n).isDigit = true :=
  charOfNat_digit_isDigit (n % 10) (Nat.mod_lt _ (by omega))

theorem natToDigits_val {fuel n : Nat} (h : n < fuel) :
    digitsVal (natToDigits fuel n) = n := by
  induction fuel generalizing n with
  | zero => omega
  | succ fuel ih =>
    by_cases hn : n < 10
    · simp only [natToDigits, if_pos hn, digitsVal, List.foldl_cons, List.foldl_nil,
        digitChar_toNat hn]
      omega
    · have hdiv : n / 10 < fuel := by
        have := Nat.div_lt_self (by omega : 0 < n) (by omega : 1 < 10)
        omega
      simp only [natToDigits, if_neg hn]
      rw [digitsVal_append, ih hdiv]
      have hmod : n % 10 < 10 := Nat.mod_lt _ (by omega)
      simp only [digitsVal, List.length_cons, List.length_nil, List.foldl_cons,
        List.foldl_nil, digitChar_toNat hmod]
      omega

theorem natRepr_val (n : Nat) : strToNat (natRepr n) = n := by
  simpa [strToNat, natRepr] using natToDigits_val (Nat.lt_succ_self n)

theorem natRepr_inj {a b : Nat} (h : natRepr a = natRepr b) : a = b := by
  have := congrArg strToNat h
  rwa [natRepr_val, natRepr_val] at this

theorem natToDigits_isDigit {fuel n : Nat} {c : Char}
    (h : c ∈ natToDigits fuel n) : c.isDigit = true := by
  induction fuel generalizing n with
  | zero => simp [natToDigits] at h
  | succ fuel ih =>
    by_cases hn : n < 10
    · simp only [natToDigits, if_pos hn, List.mem_singleton] at h
      exact h ▸ digitChar_isDigit n
    · simp only [natToDigits, if_neg hn, List.mem_append, List.mem_singleton] at h
      rcases h with h | h
      · exact ih h
      · exact h ▸ digitChar_isDigit (n % 10)

theorem natRepr_isDigit {n : Nat} {c : Char} (h : c ∈ (natRepr n).data) :
    c.isDigit = true :=
  natToDigits_isDigit (by simpa [natRepr] using h)

theorem natRepr_ne_nil (n : Nat) : (natRepr n).data ≠ [] := by
  simp only [natRepr]
  by_cases hn : n < 10 <;> simp [natToDigits, hn]

theorem natToDigits_small {fuel k : Nat} (hk : k < 10) (hf : 0 < fuel) :
    natToDigits fuel k = [digitChar k] := by
  cases fuel with
  | zero => omega
  | succ fuel => simp [natToDigits, hk]

theorem strLength_append (s t : String) : (s ++ t).length = s.length + t.length := by
  show (s ++ t).data.length = s.data.length + t.data.length
  rw [String.data_append, List.length_append]

theorem natRepr_length_small {n : Nat} (h : n < 10) : (natRepr n).length = 1 := by
  unfold natRepr
  rw [natToDigits_small h (Nat.succ_pos n)]
  rfl

theorem natRepr_length_two {n : Nat} (h₁ : 10 ≤ n) (h₂ : n < 100) :
    (natRepr n).length = 2 := by
  have hn10 : ¬ n < 10 := by omega
  have hdivlt : n / 10 < 10 := by omega
  unfold natRepr
  simp only [natToDigits, hn10, if_false]
  rw [natToDigits_small hdivlt (by omega : 0 < n)]
  rfl

theorem pad2_length {n : Nat} (h : n < 100) : (pad2 n).length = 2 := by
  unfold pad2
  by_cases hn : n < 10
  · rw [if_pos hn, strLength_append, natRepr_length_small hn]
    decide
  · rw [if_neg hn]
    exact natRepr_length_two (by omega) h

theorem emptyStr_length : ("" : String).length = 0 := rfl

theorem str00_length : ("00" : String).length = 2 := rfl

theorem strToNat_zero : strToNat "0" = 0 := by decide

theorem strToNat_00 : strToNat "00" = 0 := by decide

theorem pad2_val {n : Nat} (_h : n < 100) : strToNat (pad2 n) = n := by
  unfold pad2
  by_cases hn : n < 10
  · rw [if_pos hn, strToNat_append, natRepr_length_small hn, natRepr_val, strToNat_zero]
    ring
  · rw [if_neg hn]
    exact natRepr_val n

/-! ### Claim C5: `_extract_date_value` matches the spec's description -/

theorem strToNat_ymd (t m d : String) (hm : m.length = 2) (hd : d.length = 2) :
    strToNat (t ++ m ++ d) = strToNat t * 10000 + strToNat m * 100 + strToNat d := by
  rw [strToNat_append, strToNat_append, hm, hd]
  have h2 : (10 : Nat) ^ 2 = 100 := by norm_num
  rw [h2]
  ring

theorem dayTokenStr_length (rest2 : List String) : (dayTokenStr rest2).length = 2 := by
  match rest2 with
  | [] => exact str00_length
  | d :: _ =>
    simp only [dayTokenStr]
    split_ifs with hdl hdr
    · exact pad2_length (by omega)
    · exact str00_length
    · exact str00_length

theorem monthDayTokens_length (rest : List String) :
    (monthDayTokens rest).1.length = 2 ∧ (monthDayTokens rest).2.length = 2 := by
  match rest with
  | [] => exact ⟨str00_length, str00_length⟩
  | m :: rest2 =>
    simp only [monthDayTokens]
    split_ifs with hml hmr
    · exact ⟨pad2_length (by omega), dayTokenStr_length rest2⟩
    · exact ⟨str00_length, str00_length⟩
    · exact ⟨str00_length, str00_length⟩

theorem monthDayTokens_month (rest : List String) :
    strToNat (monthDayTokens rest).1 = specMonthVal (rest.getD 0 "") := by
  match rest with
  | [] =>
    simp only [monthDayTokens, specMonthVal, List.getD_nil]
    rw [if_neg (by simp [emptyStr_length])]
    exact strToNat_00
  | m :: rest2 =>
    simp only [monthDayTokens, specMonthVal, List.getD_cons_zero]
    by_cases hml : m.length = 2
    · by_cases hmr : 1 ≤ strToNat m ∧ strToNat m ≤ 12
      · rw [if_pos hml, if_pos hmr, if_pos ⟨hml, hmr.1, hmr.2⟩]
        exact pad2_val (by omega)
      · rw [if_pos hml, if_neg hmr,
          if_neg (by tauto : ¬ (m.length = 2 ∧ 1 ≤ strToNat m ∧ strToNat m ≤ 12))]
        exact strToNat_00
    · rw [if_neg hml,
        if_neg (by tauto : ¬ (m.length = 2 ∧ 1 ≤ strToNat m ∧ strToNat m ≤ 12))]
      exact strToNat_00

theorem specDayVal_zero (dayTok : String) : specDayVal 0 dayTok = 0 := by
  simp [specDayVal]

theorem dayTokenStr_val (rest2 : List String) {month : Nat} (hm : month ≠ 0) :
    strToNat (dayTokenStr rest2) = specDayVal month (rest2.getD 0 "") := by
  match rest2 with
  | [] =>
    simp only [dayTokenStr, specDayVal, List.getD_nil]
    rw [if_neg (by simp [emptyStr_length])]
    exact strToNat_00
  | d :: _ =>
    simp only [dayTokenStr, specDayVal, List.getD_cons_zero]
    by_cases hdl : d.length = 2
    · by_cases hdr : 1 ≤ strToNat d ∧ strToNat d ≤ 31
      · rw [if_pos hdl, if_pos hdr, if_pos ⟨hm, hdl, hdr.1, hdr.2⟩]
        exact pad2_val (by omega)
      · rw [if_pos hdl, if_neg hdr,
          if_neg (by tauto : ¬ (month ≠ 0 ∧ d.length = 2 ∧
            1 ≤ strToNat d ∧ strToNat d ≤ 31))]
        exact strToNat_00
    · rw [if_neg hdl,
        if_neg (by tauto : ¬ (month ≠ 0 ∧ d.length = 2 ∧
          1 ≤ strToNat d ∧ strToNat d ≤ 31))]
      exact strToNat_00

theorem monthDayTokens_day (rest : List String) :
    strToNat (monthDayTokens rest).2 =
      specDayVal (specMonthVal (rest.getD 0 "")) (rest.getD 1 "") := by
  match rest with
  | [] =>
    have hmv : specMonthVal (([] : List String).getD 0 "") = 0 := by
      simp only [specMonthVal, List.getD_nil]
      rw [if_neg (by simp [emptyStr_length])]
    rw [hmv, specDayVal_zero]
    exact strToNat_00
  | m :: rest2 =>
    simp only [List.getD_cons_zero, List.getD_cons_succ]
    by_cases hml : m.length = 2
    · by_cases hmr : 1 ≤ strToNat m ∧ strToNat m ≤ 12
      · have hmv : specMonthVal m = strToNat m := by
          simp only [specMonthVal]
          rw [if_pos ⟨hml, hmr.1, hmr.2⟩]
        have hpair : monthDayTokens (m :: rest2) = (pad2 (strToNat m), dayTokenStr rest2) := by
          simp only [monthDayTokens]
          rw [if_pos hml, if_pos hmr]
        rw [hpair, hmv]
        exact dayTokenStr_val rest2 (by omega)
      · have hmv : specMonthVal m = 0 := by
          simp only [specMonthVal]
          rw [if_neg (by tauto : ¬ (m.length = 2 ∧ 1 ≤ strToNat m ∧ strToNat m ≤ 12))]
        have hpair : monthDayTokens (m :: rest2) = ("00", "00") := by
          simp only [monthDayTokens]
          rw [if_pos hml, if_neg hmr]
        rw [hpair, hmv, specDayVal_zero]
        exact strToNat_00
    · have hmv : specMonthVal m = 0 := by
        simp only [specMonthVal]
        rw [if_neg (by tauto : ¬ (m.length = 2 ∧ 1 ≤ strToNat m ∧ strToNat m ≤ 12))]
      have hpair : monthDayTokens (m :: rest2) = ("00", "00") := by
        simp only [monthDayTokens]
        rw [if_neg hml]
      rw [hpair, hmv, specDayVal_zero]
      exact strToNat_00

theorem extractLoop_eq_spec (tokens : List String) :
    extractLoop tokens =
      (match tokens.findIdx? isYearToken with
       | none => (false, 0)
       | some i =>
         (true, strToNat (tokens.getD i "") * 10000 +
           specMonthVal (tokens.getD (i + 1) "") * 100 +
           specDayVal (specMonthVal (tokens.getD (i + 1) "")) (tokens.getD (i + 2) ""))) := by
  induction tokens with
  | nil => rfl
  | cons t rest ih =>
    by_cases hy : isYearToken t = true
    · have hfind : (t :: rest).findIdx? isYearToken = some 0 := by
        simp [List.findIdx?_cons, hy]
      rw [hfind]
      simp only [extractLoop]
      rw [if_pos (by simpa [isYearToken] using hy)]
      simp only [List.getD_cons_zero, List.getD_cons_succ]
      rw [strToNat_ymd t _ _ (monthDayTokens_length rest).1 (monthDayTokens_length rest).2,
        monthDayTokens_month, monthDayTokens_day]
    · have hy' : isYearToken t = false := by
        revert hy
        cases isYearToken t <;> simp
      have hfind : (t :: rest).findIdx? isYearToken =
          (rest.findIdx? isYearToken).map (· + 1) := by
        rw [show (t :: rest).findIdx? isYearToken = (t :: rest).findIdx? isYearToken 0 from rfl,
          List.findIdx?_cons, if_neg (by simp [hy']), List.findIdx?_start_succ]
      rw [hfind]
      simp only [extractLoop]
      rw [if_neg (by simpa [isYearToken] using hy), ih]
      match hr : rest.findIdx? isYearToken with
      | none => simp
      | some i => simp [List.getD_cons_succ]

/-- Claim C5 (confirmed): for every relative path, `_extract_date_value`
tokenizes the path into maximal digit runs, finds the first token of length 4
starting with "19" or "20" as the year, consumes an immediately following
2-digit token as the month only if its value is in 1..12, then a further
2-digit token as the day only if its value is in 1..31, defaults missing
components to zero, and returns `(true, YYYYMMDD)` — and `(false, 0)` when no
year token exists. -/
theorem claim_C5_extract_date_value (relPath : String) :
    _extract_date_value relPath = extractDateValueSpec relPath := by
  unfold _extract_date_value extractDateValueSpec
  exact extractLoop_eq_spec (digitTokens relPath)

/-! ### Claim C6: `guess_date_hint` (src/app.py lines 101-110) -/

/-- Split of a character list at "/" separators. -/
def splitSlashAux : List Char → List Char → List String
  | [], acc => [String.mk acc.reverse]
  | c :: cs, acc =>
    if c = '/' then String.mk acc.reverse :: splitSlashAux cs []
    else splitSlashAux cs (c :: acc)

/-- Split of a string at "/" separators. -/
def splitSlash (s : String) : List String := splitSlashAux s.data []

/-- Segments of a relative POSIX path, the model of `Path(rel).parts` for the
normalized relative paths this system produces (separator "/", no empty
segments). -/
def pathParts (s : String) : List String :=
  (splitSlash s).filter (fun seg => seg ≠ "")

/-- Count of occurrences of a character, the model of Python's `str.count`
with a single-character argument. -/
def countChar (s : String) (c : Char) : Nat := s.data.count c

/-- Loop of `guess_date_hint` (src/app.py lines 102-109), over the path
segments leaf-first: a bare 4-digit segment is returned as is; a segment of
length at least 8 whose first 4 characters are digits is returned with all
separators normalized to "-", but only when the normalized form contains at
least two "-" separators; otherwise the scan continues. -/
def guessLoop : List String → Option String
  | [] => none
  | part :: rest =>
    let normalized := replaceChar part '-' '_'
    if normalized.length = 4 && isDigitStr normalized then some normalized
    else if normalized.length ≥ 8 && isDigitStr (String.mk (normalized.data.take 4)) then
      let cleaned := replaceChar normalized '_' '-'
      if countChar cleaned '-' ≥ 2 then some cleaned else guessLoop rest
    else guessLoop rest

/-- Embedding of `guess_date_hint(relative_path)` (src/app.py lines 101-110). -/
def guess_date_hint (relPath : String) : Option String :=
  guessLoop (pathParts relPath).reverse

/-- Qualification test in the wording of the amended claim C6: a segment
qualifies if it is a bare 4-digit year, or if it has length at least 8, its
first 4 characters are digits, and its separator-normalized form (`_`→`-`)
contains at least two "-" separators. -/
def qualifiesAmended (part : String) : Option String :=
  let normalized := replaceChar part '-' '_'
  if normalized.length = 4 && isDigitStr normalized then some normalized
  else
    let cleaned := replaceChar normalized '_' '-'
    if normalized.length ≥ 8 && isDigitStr (String.mk (normalized.data.take 4)) &&
        countChar cleaned '-' ≥ 2 then
      some cleaned
    else none

/-- Amended claim C6's description: scan segments from the leaf toward the
root and return the first qualifying segment; nothing when no segment
qualifies. -/
def guessDateHintAmended (relPath : String) : Option String :=
  ((pathParts relPath).reverse).findSome? qualifiesAmended

theorem guessLoop_eq_findSome? (parts : List String) :
    guessLoop parts = parts.findSome? qualifiesAmended := by
  induction parts with
  | nil => rfl
  | cons part rest ih =>
    rw [List.findSome?_cons]
    simp only [guessLoop, qualifiesAmended]
    by_cases h4 : (replaceChar part '-' '_').length = 4 &&
        isDigitStr (replaceChar part '-' '_')
    · rw [if_pos h4, if_pos h4]
    · rw [if_neg h4, if_neg h4]
      by_cases h8 : (replaceChar part '-' '_').length ≥ 8 &&
          isDigitStr (String.mk ((replaceChar part '-' '_').data.take 4))
      · by_cases hc : countChar (replaceChar (replaceChar part '-' '_') '_' '-') '-' ≥ 2
        · rw [if_pos h8, if_pos hc,
            if_pos (by simp_all : ((replaceChar part '-' '_').length ≥ 8 &&
              isDigitStr (String.mk ((replaceChar part '-' '_').data.take 4)) &&
              decide (countChar (replaceChar (replaceChar part '-' '_') '_' '-') '-' ≥ 2)) = true)]
        · rw [if_pos h8, if_neg hc,
            if_neg (by simp_all : ¬ ((replaceChar part '-' '_').length ≥ 8 &&
              isDigitStr (String.mk ((replaceChar part '-' '_').data.take 4)) &&
              decide (countChar (replaceChar (replaceChar part '-' '_') '_' '-') '-' ≥ 2)) = true),
            ih]
      · rw [if_neg h8,
          if_neg (by simp_all : ¬ ((replaceChar part '-' '_').length ≥ 8 &&
            isDigitStr (String.mk ((replaceChar part '-' '_').data.take 4)) &&
            decide (countChar (replaceChar (replaceChar part '-' '_') '_' '-') '-' ≥ 2)) = true),
          ih]

/-- Counterexample to claim C6 as stated: the path `20220501/a.jpg` has a
leaf-most segment of 8 contiguous digits whose first 4 characters are digits,
which the claim says is returned — but `guess_date_hint` skips it because its
normalized form contains no "-" separator at all, and returns nothing. -/
theorem claim_C6_counterexample :
    guess_date_hint "20220501/a.jpg" = none ∧
    ("20220501" : String).length ≥ 8 ∧
    isDigitStr (String.mk (("20220501" : String).data.take 4)) = true := by
  refine ⟨?_, by decide, by decide⟩
  decide

/-- Amended claim C6 (proved): `guess_date_hint` scans the path segments from
the leaf toward the root and returns the first segment that is either a bare
4-digit year or a token of length at least 8 whose first 4 characters are
digits and that, after normalizing separators `_`→`-`, contains at least two
"-" separators (so purely numeric tokens such as "20220501" never qualify);
it returns nothing when no segment qualifies. -/
theorem claim_C6_guess_date_hint (relPath : String) :
    guess_date_hint relPath = guessDateHintAmended relPath :=
  guessLoop_eq_findSome? (pathParts relPath).reverse

/-! ### Lexicographic string comparison (model of Python's `str` order) -/

/-- Lexicographic strict comparison on character lists by code point, the
model of Python's `<` on strings. -/
def listLtB : List Char → List Char → Bool
  | [], [] => false
  | [], _ :: _ => true
  | _ :: _, [] => false
  | a :: as, b :: bs =>
    if a.toNat < b.toNat then true
    else if b.toNat < a.toNat then false
    else listLtB as bs

/-- Strict string comparison. -/
def strLtB (s t : String) : Bool := listLtB s.data t.data

/-- Nonstrict string comparison. -/
def strLeB (s t : String) : Bool := !(strLtB t s)

theorem listLtB_asymm : ∀ as bs, listLtB as bs = true → listLtB bs as = false
  | [], [], h => by simp [listLtB] at h
  | [], _ :: _, _ => rfl
  | _ :: _, [], h => by simp [listLtB] at h
  | a :: as, b :: bs, h => by
    simp only [listLtB] at h ⊢
    by_cases hab : a.toNat < b.toNat
    · rw [if_neg (by omega), if_pos hab]
    · by_cases hba : b.toNat < a.toNat
      · rw [if_pos hba] at h ⊢
        rw [if_neg hab] at h
        exact absurd h (by simp)
      · rw [if_neg hab, if_neg hba] at h
        rw [if_neg hba, if_neg hab]
        exact listLtB_asymm as bs h

theorem listLtB_connex :
    ∀ as bs cs, listLtB as cs = true →
      listLtB as bs = true ∨ listLtB bs cs = true
  | [], bs, c :: cs, _ => by
    match bs with
    | [] => exact Or.inr rfl
    | b :: bs => exact Or.inl rfl
  | [], _, [], h => by simp [listLtB] at h
  | _ :: _, _, [], h => by simp [listLtB] at h
  | a :: as, bs, c :: cs, h => by
    match bs with
    | [] => exact Or.inr rfl
    | b :: bs =>
      simp only [listLtB] at h ⊢
      by_cases hab : a.toNat < b.toNat
      · exact Or.inl (by rw [if_pos hab])
      · by_cases hba : b.toNat < a.toNat
        · by_cases hca : c.toNat < a.toNat
          · by_cases hac : a.toNat < c.toNat
            · omega
            · rw [if_neg hac, if_pos hca] at h
              exact absurd h (by simp)
          · exact Or.inr (by rw [if_pos (by omega : b.toNat < c.toNat)])
        · have hEq : a.toNat = b.toNat := by omega
          by_cases hac : a.toNat < c.toNat
          · exact Or.inr (by rw [if_pos (by omega : b.toNat < c.toNat)])
          · by_cases hca : c.toNat < a.toNat
            · rw [if_neg hac, if_pos hca] at h
              exact absurd h (by simp)
            · rw [if_neg hac, if_neg hca] at h
              rcases listLtB_connex as bs cs h with h' | h'
              · exact Or.inl (by rw [if_neg hab, if_neg hba]; exact h')
              · exact Or.inr (by rw [if_neg (by omega : ¬ b.toNat < c.toNat),
                  if_neg (by omega : ¬ c.toNat < b.toNat)]; exact h')

theorem strLeB_total (s t : String) : strLeB s t = true ∨ strLeB t s = true := by
  simp only [strLeB, Bool.not_eq_true']
  by_cases h : strLtB t s = true
  · right
    simp only [strLtB] at *
    exact listLtB_asymm _ _ h
  · left
    simpa using h

theorem strLeB_trans {s t u : String} (h₁ : strLeB s t = true)
    (h₂ : strLeB t u = true) : strLeB s u = true := by
  simp only [strLeB, Bool.not_eq_true', strLtB] at *
  by_cases h : listLtB u.data s.data = true
  · rcases listLtB_connex _ t.data _ h with h' | h'
    · rw [h'] at h₂
      exact absurd h₂ (by simp)
    · rw [h'] at h₁
      exact absurd h₁ (by simp)
  · simpa using h

/-! ### Claim C1: `sorted_image_paths` (src/app.py lines 341-377) -/

/-- Test for "this relative path carries a date" (first component of
`_extract_date_value`). -/
def hasDateP (p : String) : Bool := (_extract_date_value p).1

/-- Python's comparison of the sort key `(item[0], item[1].lower())` used for
the dated list (src/app.py line 357): value first, then lowercased path. -/
def datedLEb (a b : Nat × String) : Bool :=
  if a.1 < b.1 then true
  else if b.1 < a.1 then false
  else strLeB (lowerStr a.2) (lowerStr b.2)

/-- Sort relation for the dated list. -/
def datedLE (a b : Nat × String) : Prop := datedLEb a b = true

/-- Python's comparison of the sort key `path.lower()` used for the undated
list (src/app.py line 358). -/
def undatedLE (p q : String) : Prop := strLeB (lowerStr p) (lowerStr q) = true

instance : DecidableRel datedLE := fun a b => instDecidableEqBool (datedLEb a b) true

instance : DecidableRel undatedLE :=
  fun p q => instDecidableEqBool (strLeB (lowerStr p) (lowerStr q)) true

instance : IsTotal (Nat × String) datedLE where
  total a b := by
    unfold datedLE datedLEb
    rcases Nat.lt_trichotomy a.1 b.1 with h | h | h
    · exact Or.inl (by rw [if_pos h])
    · rcases strLeB_total (lowerStr a.2) (lowerStr b.2) with h' | h'
      · exact Or.inl (by rw [if_neg (by omega), if_neg (by omega)]; exact h')
      · exact Or.inr (by rw [if_neg (by omega), if_neg (by omega)]; exact h')
    · exact Or.inr (by rw [if_pos h])

instance : IsTrans (Nat × String) datedLE where
  trans a b c h₁ h₂ := by
    unfold datedLE datedLEb at *
    by_cases hab : a.1 < b.1 <;> by_cases hbc : b.1 < c.1
    · rw [if_pos (by omega)]
    · rw [if_neg hbc] at h₂
      by_cases hcb : c.1 < b.1
      · rw [if_pos hcb] at h₂
        exact absurd h₂ (by simp)
      · rw [if_pos (by omega)]
    · rw [if_neg hab] at h₁
      by_cases hba : b.1 < a.1
      · rw [if_pos hba] at h₁
        exact absurd h₁ (by simp)
      · rw [if_pos (by omega)]
    · rw [if_neg hab] at h₁
      rw [if_neg hbc] at h₂
      by_cases hba : b.1 < a.1
      · rw [if_pos hba] at h₁
        exact absurd h₁ (by simp)
      · by_cases hcb : c.1 < b.1
        · rw [if_pos hcb] at h₂
          exact absurd h₂ (by simp)
        · rw [if_neg hba] at h₁
          rw [if_neg hcb] at h₂
          rw [if_neg (by omega), if_neg (by omega)]
          exact strLeB_trans h₁ h₂

instance : IsTotal String undatedLE where
  total p q := strLeB_total (lowerStr p) (lowerStr q)

instance : IsTrans String undatedLE where
  trans _ _ _ h₁ h₂ := strLeB_trans h₁ h₂

/-- Dated entries `(value, relative)` collected by the scan loop of
`sorted_image_paths` (src/app.py lines 347-355), in scan order. -/
def datedOf (scanned : List String) : List (Nat × String) :=
  scanned.filterMap (fun rel =>
    if (_extract_date_value rel).1 then some ((_extract_date_value rel).2, rel) else none)

/-- Undated entries collected by the same loop, in scan order. -/
def undatedOf (scanned : List String) : List String :=
  scanned.filter (fun rel => !hasDateP rel)

/-- The cached canonical ascending list (src/app.py lines 357-359): dated
entries sorted by `(value, path.lower())`, then undated paths sorted by
`path.lower()` (Python's stable sort is modelled by `insertionSort`). -/
def cachePaths (scanned : List String) : List String :=
  (List.insertionSort datedLE (datedOf scanned)).map Prod.snd ++
    List.insertionSort undatedLE (undatedOf scanned)

/-- Embedding of `sorted_image_paths(root, order)` (src/app.py lines
341-377), as a function of the list of relative image paths produced by the
recursive scan (in scan order).  The 30-second cache is modelled by the
single rebuild it memoizes.  "asc" returns the cached list; any other order
re-partitions it by `_extract_date_value`, reverses only the dated block and
appends the undated block unchanged. -/
def sorted_image_paths (scanned : List String) (order : String) : List String :=
  if order = "asc" then cachePaths scanned
  else
    ((cachePaths scanned).filter hasDateP).reverse ++
      (cachePaths scanned).filter (fun p => !hasDateP p)

/-- Claim C1's per-path order on the dated block: ascending by
`(dateValue, lowercased path)`. -/
def datedPathLE (p q : String) : Prop :=
  datedLEb ((_extract_date_value p).2, p) ((_extract_date_value q).2, q) = true

theorem mem_datedOf {scanned : List String} {x : Nat × String}
    (hx : x ∈ datedOf scanned) :
    hasDateP x.2 = true ∧ x.1 = (_extract_date_value x.2).2 := by
  rcases List.mem_filterMap.1 hx with ⟨a, _, ha⟩
  by_cases h : (_extract_date_value a).1
  · rw [if_pos h] at ha
    cases ha
    exact ⟨h, rfl⟩
  · rw [if_neg h] at ha
    cases ha

theorem mem_undatedOf {scanned : List String} {p : String}
    (hp : p ∈ undatedOf scanned) : hasDateP p = false := by
  have := (List.mem_filter.1 hp).2
  simpa using this

theorem cache_filter_pos (scanned : List String) :
    (cachePaths scanned).filter hasDateP =
      (List.insertionSort datedLE (datedOf scanned)).map Prod.snd := by
  unfold cachePaths
  rw [List.filter_append]
  rw [List.filter_eq_self.2 (by
    intro b hb
    rcases List.mem_map.1 hb with ⟨x, hx, rfl⟩
    exact (mem_datedOf ((List.mem_insertionSort _).1 hx)).1)]
  rw [List.filter_eq_nil_iff.2 (by
    intro p hp
    have := mem_undatedOf ((List.mem_insertionSort _).1 hp)
    simp [this])]
  exact List.append_nil _

theorem cache_filter_neg (scanned : List String) :
    (cachePaths scanned).filter (fun p => !hasDateP p) =
      List.insertionSort undatedLE (undatedOf scanned) := by
  unfold cachePaths
  rw [List.filter_append]
  rw [List.filter_eq_nil_iff.2 (by
    intro b hb
    rcases List.mem_map.1 hb with ⟨x, hx, rfl⟩
    have := (mem_datedOf ((List.mem_insertionSort _).1 hx)).1
    simp [this])]
  rw [List.filter_eq_self.2 (by
    intro p hp
    have := mem_undatedOf ((List.mem_insertionSort _).1 hp)
    simp [this])]
  exact List.nil_append _

theorem map_snd_datedOf (scanned : List String) :
    (datedOf scanned).map Prod.snd = scanned.filter hasDateP := by
  induction scanned with
  | nil => rfl
  | cons a l ih =>
    by_cases h : (_extract_date_value a).1
    · simp only [datedOf, List.filterMap_cons, if_pos h, List.map_cons, List.filter_cons]
      rw [if_pos (by simpa [hasDateP] using h)]
      simpa [datedOf] using congrArg (List.cons a) ih
    · simp only [datedOf, List.filterMap_cons, if_neg h, List.filter_cons]
      rw [if_neg (by simpa [hasDateP] using h)]
      exact ih

theorem cachePaths_perm (scanned : List String) : (cachePaths scanned).Perm scanned := by
  unfold cachePaths
  have h1 : ((List.insertionSort datedLE (datedOf scanned)).map Prod.snd).Perm
      (scanned.filter hasDateP) := by
    rw [← map_snd_datedOf]
    exact (List.perm_insertionSort _ _).map _
  have h2 : (List.insertionSort undatedLE (undatedOf scanned)).Perm
      (scanned.filter (fun rel => !hasDateP rel)) :=
    List.perm_insertionSort _ _
  exact (h1.append h2).trans (List.filter_append_perm hasDateP scanned)

/-- Counterexample to claim C1 as stated: for the scan
`["2022/B.jpg", "2022/a.jpg"]`, both images are dated with the same
`dateValue`, and in lexicographic (code-point) path order "2022/B.jpg"
precedes "2022/a.jpg" (`B` is 66, `a` is 97) — so the claimed
`(dateValue, path)`-ascending order requires `["2022/B.jpg", "2022/a.jpg"]` —
yet `sorted_image_paths(·, "asc")` returns `["2022/a.jpg", "2022/B.jpg"]`,
because the source sorts by the case-insensitive key `path.lower()`
(src/app.py lines 357-358), not by the raw path. -/
theorem claim_C1_counterexample :
    sorted_image_paths ["2022/B.jpg", "2022/a.jpg"] "asc" =
      ["2022/a.jpg", "2022/B.jpg"] ∧
    hasDateP "2022/B.jpg" = true ∧
    hasDateP "2022/a.jpg" = true ∧
    (_extract_date_value "2022/B.jpg").2 = (_extract_date_value "2022/a.jpg").2 ∧
    strLtB "2022/B.jpg" "2022/a.jpg" = true :=
  ⟨by decide, by decide, by decide, by decide, by decide⟩

/-- Amended claim C1 (proved): for every scan result,
`sorted_image_paths(·, "asc")` is a permutation of the scanned paths that
lists all dated images first, ordered ascending by
`(dateValue, lowercased path)`, followed by all undated images ordered
ascending by lowercased path (the source's `path.lower()` collation, not the
raw-path order the original claim stated); `sorted_image_paths(·, "desc")`
reverses only the dated block and appends the undated block unchanged; hence
whenever both blocks are non-empty the "desc" result is not the reverse of
the "asc" result. -/
theorem claim_C1_sorted_image_paths (scanned : List String) :
    (sorted_image_paths scanned "asc").Perm scanned ∧
    sorted_image_paths scanned "asc" =
      (sorted_image_paths scanned "asc").filter hasDateP ++
        (sorted_image_paths scanned "asc").filter (fun p => !hasDateP p) ∧
    ((sorted_image_paths scanned "asc").filter hasDateP).Pairwise datedPathLE ∧
    ((sorted_image_paths scanned "asc").filter (fun p => !hasDateP p)).Pairwise undatedLE ∧
    sorted_image_paths scanned "desc" =
      ((sorted_image_paths scanned "asc").filter hasDateP).reverse ++
        (sorted_image_paths scanned "asc").filter (fun p => !hasDateP p) ∧
    ((sorted_image_paths scanned "asc").filter hasDateP ≠ [] →
      (sorted_image_paths scanned "asc").filter (fun p => !hasDateP p) ≠ [] →
      sorted_image_paths scanned "desc" ≠ (sorted_image_paths scanned "asc").reverse) := by
  have hasc : sorted_image_paths scanned "asc" = cachePaths scanned := by
    simp [sorted_image_paths]
  have hdesc : sorted_image_paths scanned "desc" =
      ((cachePaths scanned).filter hasDateP).reverse ++
        (cachePaths scanned).filter (fun p => !hasDateP p) := by
    simp [sorted_image_paths]
  have hsplit : cachePaths scanned =
      (cachePaths scanned).filter hasDateP ++
        (cachePaths scanned).filter (fun p => !hasDateP p) := by
    rw [cache_filter_pos, cache_filter_neg]
    rfl
  have hpairD : ((cachePaths scanned).filter hasDateP).Pairwise datedPathLE := by
    rw [cache_filter_pos]
    refine List.pairwise_map.2 ?_
    refine List.Pairwise.imp_of_mem ?_ (List.sorted_insertionSort datedLE (datedOf scanned))
    intro a b ha hb hab
    have ha' := mem_datedOf ((List.mem_insertionSort _).1 ha)
    have hb' := mem_datedOf ((List.mem_insertionSort _).1 hb)
    unfold datedPathLE
    rw [← ha'.2, ← hb'.2]
    exact hab
  have hpairU : ((cachePaths scanned).filter (fun p => !hasDateP p)).Pairwise undatedLE := by
    rw [cache_filter_neg]
    exact List.sorted_insertionSort undatedLE (undatedOf scanned)
  refine ⟨?_, ?_, ?_, ?_, ?_, ?_⟩
  · rw [hasc]
    exact cachePaths_perm scanned
  · rw [hasc]
    exact hsplit
  · rw [hasc]
    exact hpairD
  · rw [hasc]
    exact hpairU
  · rw [hasc, hdesc]
  · intro hA hB heq
    rw [hasc] at hA hB
    rw [hdesc, hasc] at heq
    set A := (cachePaths scanned).filter hasDateP with hAdef
    set B := (cachePaths scanned).filter (fun p => !hasDateP p) with hBdef
    rw [show cachePaths scanned = A ++ B from hsplit, List.reverse_append] at heq
    rcases List.exists_cons_of_ne_nil (by simpa using hA :
      A.reverse ≠ ([] : List String)) with ⟨x, xs, hx⟩
    rcases List.exists_cons_of_ne_nil (by simpa using hB :
      B.reverse ≠ ([] : List String)) with ⟨y, ys, hy⟩
    rw [hx, hy] at heq
    have hxy : x = y := by
      have := congrArg List.head? heq
      simpa using this
    have hxA : x ∈ A := by
      have : x ∈ A.reverse := by
        rw [hx]
        exact List.mem_cons_self x xs
      exact List.mem_reverse.1 this
    have hyB : y ∈ B := by
      have : y ∈ B.reverse := by
        rw [hy]
        exact List.mem_cons_self y ys
      exact List.mem_reverse.1 this
    have h1 : hasDateP x = true := (List.mem_filter.1 hxA).2
    have h2 : hasDateP y = false := by
      have := (List.mem_filter.1 hyB).2
      simpa using this
    rw [hxy, h2] at h1
    cases h1

/-- Witness for claim C1 at the spec's example fixture. -/
theorem claim_C1_witness :
    (sorted_image_paths ["2022-05-01/a.jpg", "2022-05-02/b.jpg", "misc/c.jpg"] "asc").filter
        hasDateP ≠ [] ∧
    (sorted_image_paths ["2022-05-01/a.jpg", "2022-05-02/b.jpg", "misc/c.jpg"] "asc").filter
        (fun p => !hasDateP p) ≠ [] ∧
    sorted_image_paths ["2022-05-01/a.jpg", "2022-05-02/b.jpg", "misc/c.jpg"] "desc" ≠
      (sorted_image_paths ["2022-05-01/a.jpg", "2022-05-02/b.jpg", "misc/c.jpg"] "asc").reverse :=
  ⟨by decide, by decide,
    (claim_C1_sorted_image_paths
      ["2022-05-01/a.jpg", "2022-05-02/b.jpg", "misc/c.jpg"]).2.2.2.2.2
      (by decide) (by decide)⟩


/-! ### Claim C2: subgroup member order in `build_hierarchy`
(src/app.py lines 430-508) -/

/-- One image record of the hierarchy (src/app.py lines 463-469). -/
structure ImageItem where
  name : String
  path : String
  dateHint : String
  dateValue : Nat
  hasDate : Bool
deriving DecidableEq

/-- Python's `a or b` for an optional string `a` (falsy = absent or empty). -/
def pyOrOpt (a : Option String) (b : String) : String :=
  match a with
  | some s => if s = "" then b else s
  | none => b

/-- Subgroup key: first two path segments joined by "/" when the path has at
least two segments, else the single segment (src/app.py lines 451-458). -/
def subgroupKeyOf : List String → String
  | p0 :: p1 :: _ => p0 ++ "/" ++ p1
  | [p0] => p0
  | [] => ""

/-- Subgroup label: the second segment when present, else the first. -/
def subgroupLabelOf : List String → String
  | _ :: p1 :: _ => p1
  | [p0] => p0
  | [] => ""

/-- The image record built for one scanned relative path (src/app.py lines
460-469). -/
def mkImageItem (rel : String) : ImageItem where
  name := (pathParts rel).getLastD ""
  path := rel
  dateHint := pyOrOpt (guess_date_hint rel) (subgroupLabelOf (pathParts rel))
  dateValue := (_extract_date_value rel).2
  hasDate := (_extract_date_value rel).1

/-- Python's tuple comparison of the member sort key
`(1 if hasDate else 0, dateValue, path.lower())` (src/app.py lines 501-506):
nonstrict lexicographic comparison. -/
def hierKeyLeB (a b : ImageItem) : Bool :=
  if (if a.hasDate then 1 else 0) < (if b.hasDate then (1 : Nat) else 0) then true
  else if (if b.hasDate then (1 : Nat) else 0) < (if a.hasDate then 1 else 0) then false
  else if a.dateValue < b.dateValue then true
  else if b.dateValue < a.dateValue then false
  else strLeB (lowerStr a.path) (lowerStr b.path)

/-- The relation `list.sort(key=…, reverse=True)` sorts by: `a` before `b`
when the key of `a` is at least the key of `b`. -/
def hierGE (a b : ImageItem) : Prop := hierKeyLeB b a = true

instance : DecidableRel hierGE := fun a b => instDecidableEqBool (hierKeyLeB b a) true

theorem hierKeyLeB_le1 {a b : ImageItem} (h : hierKeyLeB a b = true) :
    (if a.hasDate then (1 : Nat) else 0) ≤ (if b.hasDate then (1 : Nat) else 0) := by
  by_contra hc
  rw [hierKeyLeB, if_neg (by omega), if_pos (by omega)] at h
  cases h

theorem hierKeyLeB_le2 {a b : ImageItem} (h : hierKeyLeB a b = true)
    (h1 : (if a.hasDate then (1 : Nat) else 0) = (if b.hasDate then (1 : Nat) else 0)) :
    a.dateValue ≤ b.dateValue := by
  by_contra hc
  rw [hierKeyLeB, if_neg (by omega), if_neg (by omega), if_neg (by omega),
    if_pos (by omega)] at h
  cases h

theorem hierKeyLeB_le3 {a b : ImageItem} (h : hierKeyLeB a b = true)
    (h1 : (if a.hasDate then (1 : Nat) else 0) = (if b.hasDate then (1 : Nat) else 0))
    (h2 : a.dateValue = b.dateValue) :
    strLeB (lowerStr a.path) (lowerStr b.path) = true := by
  rwa [hierKeyLeB, if_neg (by omega), if_neg (by omega), if_neg (by omega),
    if_neg (by omega)] at h

theorem hierKeyLeB_total (a b : ImageItem) :
    hierKeyLeB a b = true ∨ hierKeyLeB b a = true := by
  unfold hierKeyLeB
  rcases Nat.lt_trichotomy (if a.hasDate then (1 : Nat) else 0)
    (if b.hasDate then (1 : Nat) else 0) with h | h | h
  · exact Or.inl (by rw [if_pos h])
  · rcases Nat.lt_trichotomy a.dateValue b.dateValue with h' | h' | h'
    · exact Or.inl (by rw [if_neg (by omega), if_neg (by omega), if_pos h'])
    · rcases strLeB_total (lowerStr a.path) (lowerStr b.path) with h'' | h''
      · exact Or.inl (by
          rw [if_neg (by omega), if_neg (by omega), if_neg (by omega), if_neg (by omega)]
          exact h'')
      · exact Or.inr (by
          rw [if_neg (by omega), if_neg (by omega), if_neg (by omega), if_neg (by omega)]
          exact h'')
    · exact Or.inr (by rw [if_neg (by omega), if_neg (by omega), if_pos h'])
  · exact Or.inr (by rw [if_pos h])

theorem hierKeyLeB_trans {a b c : ImageItem} (h₁ : hierKeyLeB a b = true)
    (h₂ : hierKeyLeB b c = true) : hierKeyLeB a c = true := by
  have ha1 := hierKeyLeB_le1 h₁
  have hb1 := hierKeyLeB_le1 h₂
  by_cases hac : (if a.hasDate then (1 : Nat) else 0) < (if c.hasDate then (1 : Nat) else 0)
  · rw [hierKeyLeB, if_pos hac]
  · have he1 : (if a.hasDate then (1 : Nat) else 0) = (if b.hasDate then (1 : Nat) else 0) := by
      omega
    have he1' : (if b.hasDate then (1 : Nat) else 0) = (if c.hasDate then (1 : Nat) else 0) := by
      omega
    have ha2 := hierKeyLeB_le2 h₁ he1
    have hb2 := hierKeyLeB_le2 h₂ he1'
    by_cases hac2 : a.dateValue < c.dateValue
    · rw [hierKeyLeB, if_neg (by omega), if_neg (by omega), if_pos hac2]
    · have he2 : a.dateValue = b.dateValue := by omega
      have he2' : b.dateValue = c.dateValue := by omega
      have ha3 := hierKeyLeB_le3 h₁ he1 he2
      have hb3 := hierKeyLeB_le3 h₂ he1' he2'
      rw [hierKeyLeB, if_neg (by omega), if_neg (by omega), if_neg (by omega),
        if_neg (by omega)]
      exact strLeB_trans ha3 hb3

instance : IsTotal ImageItem hierGE where
  total a b := (hierKeyLeB_total b a).imp id id

instance : IsTrans ImageItem hierGE where
  trans _ _ _ h₁ h₂ := hierKeyLeB_trans h₂ h₁

/-- Append of one image into its subgroup's member list, preserving first-seen
key order: the model of `images_by_group.setdefault(key, []).append(item)`
(src/app.py line 471) on an insertion-ordered mapping. -/
def appendToGroup : List (String × List ImageItem) → String → ImageItem →
    List (String × List ImageItem)
  | [], key, it => [(key, [it])]
  | (k, l) :: rest, key, it =>
    if k = key then (k, l ++ [it]) :: rest
    else (k, l) :: appendToGroup rest key it

/-- The `images_by_group` mapping after the scan loop of `build_hierarchy`
(src/app.py lines 444-471), before sorting: member lists in scan order; a
scanned path with no segments is skipped (`continue`). -/
def images_by_group_raw (scanned : List String) : List (String × List ImageItem) :=
  scanned.foldl (fun acc rel =>
    match pathParts rel with
    | [] => acc
    | parts => appendToGroup acc (subgroupKeyOf parts) (mkImageItem rel)) []

/-- The `images_by_group` mapping after the member sort (src/app.py lines
500-508): every member list sorted with
`key=(1 if hasDate else 0, dateValue, path.lower())`, `reverse=True`
(Python's stable descending sort is `insertionSort` by `hierGE`). -/
def images_by_group (scanned : List String) : List (String × List ImageItem) :=
  (images_by_group_raw scanned).map (fun kl => (kl.1, List.insertionSort hierGE kl.2))

theorem lookup_map_sort {m : List (String × List ImageItem)} {g : String}
    {l : List ImageItem}
    (h : (m.map (fun kl => (kl.1, List.insertionSort hierGE kl.2))).lookup g = some l) :
    ∃ l₀, l = List.insertionSort hierGE l₀ := by
  induction m with
  | nil => cases h
  | cons kl rest ih =>
    rw [List.map_cons, List.lookup_cons] at h
    by_cases hk : (g == kl.1) = true
    · rw [hk] at h
      exact ⟨kl.2, (Option.some_injective _ h).symm⟩
    · rw [Bool.not_eq_true] at hk
      rw [hk] at h
      exact ih h

theorem lookup_images_by_group {scanned : List String} {g : String}
    {l : List ImageItem} (h : (images_by_group scanned).lookup g = some l) :
    ∃ l₀, l = List.insertionSort hierGE l₀ :=
  lookup_map_sort (by simpa [images_by_group] using h)

/-- Counterexample to claim C2 as stated: for the scan
`["g/2022/a.jpg", "g/2022/b.jpg"]` both members of subgroup "g/2022" have the
same `hasDate` and `dateValue`, the path of the first is lexicographically
smaller, yet the stored member list places the *larger* path first (Python's
`reverse=True` also reverses the path tiebreak). -/
theorem claim_C2_counterexample :
    ((images_by_group ["g/2022/a.jpg", "g/2022/b.jpg"]).lookup "g/2022").map
        (fun l => l.map (fun it => it.path)) =
      some ["g/2022/b.jpg", "g/2022/a.jpg"] ∧
    (_extract_date_value "g/2022/a.jpg").1 = (_extract_date_value "g/2022/b.jpg").1 ∧
    (_extract_date_value "g/2022/a.jpg").2 = (_extract_date_value "g/2022/b.jpg").2 ∧
    strLtB "g/2022/a.jpg" "g/2022/b.jpg" = true := by
  exact ⟨by decide, by decide, by decide, by decide⟩

/-- Amended claim C2 (proved): after `build_hierarchy`, every subgroup's
stored member list is sorted by the key
(hasDate descending, dateValue descending, lowercased path *descending*):
among two members with the same `hasDate` and `dateValue`, the one with the
lexicographically larger lowercased path comes first, because Python's
`reverse=True` reverses the whole key tuple including the path tiebreak. -/
theorem claim_C2_member_order (scanned : List String) (g : String)
    (l : List ImageItem) (h : (images_by_group scanned).lookup g = some l) :
    l.Pairwise hierGE := by
  rcases lookup_images_by_group h with ⟨l₀, rfl⟩
  exact List.sorted_insertionSort hierGE l₀

/-- Witness for the amended claim C2 at a concrete scan. -/
theorem claim_C2_witness :
    (images_by_group ["g/2022/a.jpg", "g/2022/b.jpg"]).lookup "g/2022" =
      some [mkImageItem "g/2022/b.jpg", mkImageItem "g/2022/a.jpg"] ∧
    ([mkImageItem "g/2022/b.jpg", mkImageItem "g/2022/a.jpg"] :
      List ImageItem).Pairwise hierGE :=
  ⟨by decide, claim_C2_member_order ["g/2022/a.jpg", "g/2022/b.jpg"] "g/2022" _ (by decide)⟩

/-! ### Timeline and group-image pagination
(`timeline_sections`, src/app.py lines 380-427;
`group_images_payload`, src/app.py lines 600-638) -/

/-- Python's `a or b` on two strings (falsy = empty). -/
def pyOrStr (a b : String) : String := if a = "" then b else a

/-- One timeline item (src/app.py lines 412-418). -/
structure TItem where
  name : String
  path : String
  dateHint : String
deriving DecidableEq

/-- One timeline section: a maximal run of consecutive items sharing a
label (src/app.py lines 399-421). -/
structure TSection where
  label : Option String
  items : List TItem
deriving DecidableEq

/-- Result of `timeline_sections`. -/
structure TimelinePage where
  sections : List TSection
  nextCursor : Option String
deriving DecidableEq

/-- Name of the parent directory of a relative path (`rel_path.parent.name`),
"" for top-level entries. -/
def parentNameOf (rel : String) : String :=
  ((pathParts rel).dropLast).getLastD ""

/-- Section label of one path: `hint or rel_path.parent.name or "Unknown"`
(src/app.py line 406). -/
def timelineLabelOf (rel : String) : String :=
  pyOrOpt (guess_date_hint rel) (pyOrStr (parentNameOf rel) "Unknown")

/-- The timeline item built for one path (src/app.py lines 412-418). -/
def timelineItemOf (rel : String) : TItem where
  name := (pathParts rel).getLastD ""
  path := rel
  dateHint := pyOrOpt (guess_date_hint rel) (timelineLabelOf rel)

/-- Section-building loop of `timeline_sections` (src/app.py lines 399-421):
a section is flushed whenever the label changes; the final partial section is
flushed at the end when non-empty. -/
def sectionsFold : List String → Option String → List TItem → List TSection → List TSection
  | [], curLabel, curItems, secs =>
    if curItems.isEmpty then secs else secs ++ [⟨curLabel, curItems⟩]
  | p :: rest, curLabel, curItems, secs =>
    let label := timelineLabelOf p
    if curLabel ≠ some label then
      sectionsFold rest (some label) [timelineItemOf p]
        (if curItems.isEmpty then secs else secs ++ [⟨curLabel, curItems⟩])
    else
      sectionsFold rest curLabel (curItems ++ [timelineItemOf p]) secs

/-- Cursor resolution of `timeline_sections` (src/app.py lines 387-393): a
falsy (absent or empty) cursor starts at 0; otherwise the index right after
the first occurrence of the cursor, or 0 when the cursor is not found
(`ValueError` fallback). -/
def timelineStart (paths : List String) (cursor : Option String) : Nat :=
  match cursor with
  | none => 0
  | some c =>
    if c = "" then 0
    else
      match paths.findIdx? (· == c) with
      | some i => i + 1
      | none => 0

/-- The page slice `paths[start_index : start_index + limit]`
(src/app.py line 395). -/
def timelineSlice (paths : List String) (cursor : Option String) (limit : Nat) : List String :=
  (paths.drop (timelineStart paths cursor)).take limit

/-- Embedding of `timeline_sections(root, cursor, limit, order)` (src/app.py
lines 380-427) as a function of the ordered path sequence it paginates (the
result of `sorted_image_paths(root, order)`). -/
def timeline_sections (paths : List String) (cursor : Option String) (limit : Nat) :
    TimelinePage :=
  if paths.isEmpty then ⟨[], none⟩
  else
    let slice := timelineSlice paths cursor limit
    if slice.isEmpty then ⟨[], none⟩
    else
      ⟨sectionsFold slice none [] [],
        if timelineStart paths cursor + slice.length < paths.length then slice.getLast?
        else none⟩

/-- All items of a timeline page, in section order. -/
def timelineItems (page : TimelinePage) : List TItem :=
  (page.sections.map (fun s => s.items)).flatten

/-- One group-image item (src/app.py lines 625-632). -/
structure GItem where
  name : String
  path : String
  dateHint : String
deriving DecidableEq

/-- Result of `group_images_payload`. -/
structure GroupPage where
  images : List GItem
  nextCursor : Option String
deriving DecidableEq

/-- Cursor resolution of `group_images_payload` (src/app.py lines 613-619):
a falsy cursor starts at 0; otherwise the loop finds the first item whose
path equals the cursor and starts right after it, or at 0 when none matches. -/
def groupStart (sequence : List ImageItem) (cursor : Option String) : Nat :=
  match cursor with
  | none => 0
  | some c =>
    if c = "" then 0
    else
      match sequence.findIdx? (fun it => it.path == c) with
      | some i => i + 1
      | none => 0

/-- The page slice `sequence[start_index : start_index + limit]`
(src/app.py line 621). -/
def groupSlice (sequence : List ImageItem) (cursor : Option String) (limit : Nat) :
    List ImageItem :=
  (sequence.drop (groupStart sequence cursor)).take limit

/-- Embedding of `group_images_payload(root, group_key, cursor, limit, order)`
(src/app.py lines 600-638) as a function of the hierarchy's `images_by_group`
mapping. -/
def group_images_payload (imagesByGroup : List (String × List ImageItem))
    (group_key : String) (cursor : Option String) (limit : Nat) (order : String) :
    GroupPage :=
  match imagesByGroup.lookup group_key with
  | none => ⟨[], none⟩
  | some images =>
    let sequence := if order = "desc" then images else images.reverse
    let slice := groupSlice sequence cursor limit
    if slice.isEmpty then ⟨[], none⟩
    else
      ⟨slice.map (fun it => ⟨it.name, it.path, it.dateHint⟩),
        if groupStart sequence cursor + slice.length < sequence.length then
          (slice.getLast?).map (fun it => it.path)
        else none⟩

/-! ### Structural lemmas for the two paginators -/

theorem sectionsFold_flatten (ps : List String) (curLabel : Option String)
    (curItems : List TItem) (secs : List TSection) :
    ((sectionsFold ps curLabel curItems secs).map (fun s => s.items)).flatten =
      (secs.map (fun s => s.items)).flatten ++ curItems ++ ps.map timelineItemOf := by
  induction ps generalizing curLabel curItems secs with
  | nil =>
    by_cases h : curItems.isEmpty
    · rw [List.isEmpty_iff] at h
      simp [sectionsFold, h]
    · simp only [sectionsFold, if_neg h]
      simp
  | cons p rest ih =>
    simp only [sectionsFold]
    by_cases hl : curLabel ≠ some (timelineLabelOf p)
    · rw [if_pos hl, ih]
      by_cases h : curItems.isEmpty
      · rw [List.isEmpty_iff] at h
        simp [h]
      · rw [if_neg h]
        simp
    · rw [if_neg hl, ih]
      simp

theorem timeline_sections_eq (paths : List String) (cursor : Option String) (limit : Nat) :
    timeline_sections paths cursor limit =
      ⟨sectionsFold (timelineSlice paths cursor limit) none [] [],
        if timelineStart paths cursor + (timelineSlice paths cursor limit).length <
            paths.length then
          (timelineSlice paths cursor limit).getLast?
        else none⟩ := by
  unfold timeline_sections
  by_cases hp : paths.isEmpty
  · rw [if_pos hp]
    rw [List.isEmpty_iff] at hp
    subst hp
    have hs : timelineSlice [] cursor limit = [] := by
      simp [timelineSlice]
    rw [hs]
    simp [sectionsFold]
  · rw [if_neg hp]
    by_cases hsl : (timelineSlice paths cursor limit).isEmpty
    · rw [if_pos hsl]
      rw [List.isEmpty_iff] at hsl
      rw [hsl]
      simp [sectionsFold]
    · rw [if_neg hsl]

theorem timelineItems_eq (paths : List String) (cursor : Option String) (limit : Nat) :
    timelineItems (timeline_sections paths cursor limit) =
      (timelineSlice paths cursor limit).map timelineItemOf := by
  rw [timeline_sections_eq]
  show ((sectionsFold _ none [] []).map (fun s => s.items)).flatten = _
  rw [sectionsFold_flatten]
  simp

theorem timeline_nextCursor_eq (paths : List String) (cursor : Option String) (limit : Nat) :
    (timeline_sections paths cursor limit).nextCursor =
      (if timelineStart paths cursor + (timelineSlice paths cursor limit).length <
          paths.length then
        (timelineSlice paths cursor limit).getLast?
      else none) := by
  rw [timeline_sections_eq]

theorem group_images_payload_some (m : List (String × List ImageItem)) (g : String)
    (cursor : Option String) (limit : Nat) (order : String) (images : List ImageItem)
    (hm : m.lookup g = some images) :
    group_images_payload m g cursor limit order =
      ⟨(groupSlice (if order = "desc" then images else images.reverse) cursor limit).map
          (fun it => ⟨it.name, it.path, it.dateHint⟩),
        if groupStart (if order = "desc" then images else images.reverse) cursor +
            (groupSlice (if order = "desc" then images else images.reverse) cursor
              limit).length <
            (if order = "desc" then images else images.reverse).length then
          ((groupSlice (if order = "desc" then images else images.reverse) cursor
            limit).getLast?).map (fun it => it.path)
        else none⟩ := by
  unfold group_images_payload
  rw [hm]
  by_cases hsl : (groupSlice (if order = "desc" then images else images.reverse) cursor
      limit).isEmpty
  · simp only [if_pos hsl]
    rw [List.isEmpty_iff] at hsl
    rw [hsl]
    simp
  · simp only [if_neg hsl]

theorem group_images (m : List (String × List ImageItem)) (g : String)
    (cursor : Option String) (limit : Nat) (order : String) (images : List ImageItem)
    (hm : m.lookup g = some images) :
    (group_images_payload m g cursor limit order).images =
      (groupSlice (if order = "desc" then images else images.reverse) cursor limit).map
        (fun it => ⟨it.name, it.path, it.dateHint⟩) := by
  rw [group_images_payload_some m g cursor limit order images hm]

theorem group_nextCursor (m : List (String × List ImageItem)) (g : String)
    (cursor : Option String) (limit : Nat) (order : String) (images : List ImageItem)
    (hm : m.lookup g = some images) :
    (group_images_payload m g cursor limit order).nextCursor =
      (if groupStart (if order = "desc" then images else images.reverse) cursor +
          (groupSlice (if order = "desc" then images else images.reverse) cursor
            limit).length <
          (if order = "desc" then images else images.reverse).length then
        ((groupSlice (if order = "desc" then images else images.reverse) cursor
          limit).getLast?).map (fun it => it.path)
      else none) := by
  rw [group_images_payload_some m g cursor limit order images hm]

/-! ### Claim C10: missing group key gives an empty page, not an error -/

theorem group_images_payload_none (m : List (String × List ImageItem)) (g : String)
    (cursor : Option String) (limit : Nat) (order : String)
    (h : m.lookup g = none) :
    group_images_payload m g cursor limit order = ⟨[], none⟩ := by
  unfold group_images_payload
  rw [h]

/-- Claim C10 (confirmed): for every `images_by_group` mapping and every
group key not present in it, `group_images_payload` returns an empty image
list with no `nextCursor` — it does not fail or report not-found. -/
theorem claim_C10_missing_group (m : List (String × List ImageItem)) (g : String)
    (cursor : Option String) (limit : Nat) (order : String)
    (h : m.lookup g = none) :
    group_images_payload m g cursor limit order = ⟨[], none⟩ :=
  group_images_payload_none m g cursor limit order h

/-- Witness for claim C10: a mapping that does not contain the requested
key. -/
theorem claim_C10_witness :
    ([(("a/b" : String), ([] : List ImageItem))].lookup "zz" =
      (none : Option (List ImageItem))) ∧
    group_images_payload [("a/b", [])] "zz" (some "a/b/x.jpg") 120 "desc" = ⟨[], none⟩ :=
  ⟨by decide, claim_C10_missing_group _ _ _ _ _ (by decide)⟩

/-! ### Claim C3: cursor-not-found fallback -/

/-- Claim C3 (confirmed): for every ordered sequence served by the timeline
and by the group-images pagination, a cursor value that does not occur as an
item identifier in the sequence behaves exactly like an absent cursor:
pagination starts at index 0 and returns the first page, with no error. -/
theorem claim_C3_cursor_fallback (paths : List String) (c : String) (limit : Nat)
    (m : List (String × List ImageItem)) (g : String) (images : List ImageItem)
    (c' : String) (limit' : Nat) (order : String)
    (h1 : c ∉ paths) (hm : m.lookup g = some images)
    (h2 : c' ∉ images.map (fun it => it.path)) :
    timeline_sections paths (some c) limit = timeline_sections paths none limit ∧
    group_images_payload m g (some c') limit' order =
      group_images_payload m g none limit' order := by
  constructor
  · have hstart : timelineStart paths (some c) = timelineStart paths none := by
      show (if c = "" then 0
        else match paths.findIdx? (· == c) with
          | some i => i + 1
          | none => 0) = (0 : Nat)
      by_cases hc : c = ""
      · rw [if_pos hc]
      · rw [if_neg hc, List.findIdx?_eq_none_iff.2 (fun x hx => by
          have : x ≠ c := fun he => h1 (he ▸ hx)
          simpa using this)]
    unfold timeline_sections timelineSlice
    rw [hstart]
  · have hAll : ∀ it ∈ (if order = "desc" then images else images.reverse),
        (it.path == c') = false := by
      intro it hit
      have hmem : it ∈ images := by
        by_cases ho : order = "desc"
        · rwa [if_pos ho] at hit
        · rw [if_neg ho] at hit
          exact List.mem_reverse.1 hit
      have hne : it.path ≠ c' := fun he => h2 (he ▸ List.mem_map_of_mem _ hmem)
      simpa using hne
    have hstart : groupStart (if order = "desc" then images else images.reverse) (some c') =
        groupStart (if order = "desc" then images else images.reverse) none := by
      show (if c' = "" then 0
        else match (if order = "desc" then images else images.reverse).findIdx?
            (fun it => it.path == c') with
          | some i => i + 1
          | none => 0) = (0 : Nat)
      by_cases hc : c' = ""
      · rw [if_pos hc]
      · rw [if_neg hc, List.findIdx?_eq_none_iff.2 hAll]
    rw [group_images_payload_some m g (some c') limit' order images hm,
      group_images_payload_some m g none limit' order images hm]
    unfold groupSlice
    rw [hstart]

/-- Witness for claim C3 at concrete sequences and a stale cursor value. -/
theorem claim_C3_witness :
    (("zz" : String) ∉ ["2022/a.jpg", "2022/b.jpg"]) ∧
    ([("g/2022", [mkImageItem "g/2022/a.jpg"])].lookup "g/2022" =
      some [mkImageItem "g/2022/a.jpg"]) ∧
    (("deleted.jpg" : String) ∉ [mkImageItem "g/2022/a.jpg"].map (fun it => it.path)) ∧
    timeline_sections ["2022/a.jpg", "2022/b.jpg"] (some "zz") 120 =
      timeline_sections ["2022/a.jpg", "2022/b.jpg"] none 120 ∧
    group_images_payload [("g/2022", [mkImageItem "g/2022/a.jpg"])] "g/2022"
        (some "deleted.jpg") 120 "desc" =
      group_images_payload [("g/2022", [mkImageItem "g/2022/a.jpg"])] "g/2022"
        none 120 "desc" := by
  refine ⟨by decide, by decide, by decide, ?_, ?_⟩
  · exact (claim_C3_cursor_fallback ["2022/a.jpg", "2022/b.jpg"] "zz" 120
      [("g/2022", [mkImageItem "g/2022/a.jpg"])] "g/2022" [mkImageItem "g/2022/a.jpg"]
      "deleted.jpg" 120 "desc" (by decide) (by decide) (by decide)).1
  · exact (claim_C3_cursor_fallback ["2022/a.jpg", "2022/b.jpg"] "zz" 120
      [("g/2022", [mkImageItem "g/2022/a.jpg"])] "g/2022" [mkImageItem "g/2022/a.jpg"]
      "deleted.jpg" 120 "desc" (by decide) (by decide) (by decide)).2

/-! ### Claim C9: limit clamping in `api_group_images`/`api_timeline`
(src/app.py lines 944-974) -/

/-- The effective page limit of both endpoints: absent (or empty) parameter
defaults to 120, then `limit = max(20, min(500, limit))`
(src/app.py lines 949-954 and 963-968). -/
def effective_limit (limitParam : Option Int) : Int :=
  max 20 (min 500 (match limitParam with | some v => v | none => 120))

/-- Embedding of the `api_timeline` handler's call into the paginator
(src/app.py lines 961-974), over the ordered path sequence. -/
def api_timeline (paths : List String) (cursor : Option String)
    (limitParam : Option Int) : TimelinePage :=
  timeline_sections paths cursor (effective_limit limitParam).toNat

/-- Embedding of the `api_group_images` handler's call into the paginator
(src/app.py lines 944-959). -/
def api_group_images (m : List (String × List ImageItem)) (g : String)
    (cursor : Option String) (limitParam : Option Int) (order : String) : GroupPage :=
  group_images_payload m g cursor (effective_limit limitParam).toNat order

theorem timelineSlice_length (paths : List String) (cursor : Option String) (limit : Nat) :
    (timelineSlice paths cursor limit).length =
      min limit (paths.length - timelineStart paths cursor) := by
  unfold timelineSlice
  rw [List.length_take, List.length_drop]

theorem groupSlice_length (seq : List ImageItem) (cursor : Option String) (limit : Nat) :
    (groupSlice seq cursor limit).length =
      min limit (seq.length - groupStart seq cursor) := by
  unfold groupSlice
  rw [List.length_take, List.length_drop]

theorem effective_limit_ge (lp : Option Int) : 20 ≤ effective_limit lp :=
  le_max_left _ _

theorem effective_limit_le (lp : Option Int) : effective_limit lp ≤ 500 :=
  max_le (by norm_num) (min_le_left _ _)

/-- Claim C9 (confirmed): the effective page limit is clamped to [20, 500],
an absent limit defaults to 120, no returned page of either endpoint has more
than 500 items, and a caller-supplied limit below 20 is raised to 20 — with
at least 20 items remaining, the page then has exactly 20 items. -/
theorem claim_C9_limit_clamp (lp : Option Int) (paths : List String)
    (c : Option String) (m : List (String × List ImageItem)) (g : String)
    (c2 : Option String) (ord : String) (v : Int) :
    20 ≤ effective_limit lp ∧ effective_limit lp ≤ 500 ∧
    effective_limit none = 120 ∧
    (timelineItems (api_timeline paths c lp)).length ≤ 500 ∧
    ((api_group_images m g c2 lp ord).images).length ≤ 500 ∧
    (lp = some v → v < 20 →
      effective_limit lp = 20 ∧
      (timelineStart paths c + 20 ≤ paths.length →
        (timelineItems (api_timeline paths c lp)).length = 20)) := by
  have htoNat : (effective_limit lp).toNat ≤ 500 := by
    have := effective_limit_le lp
    omega
  refine ⟨effective_limit_ge lp, effective_limit_le lp, by decide, ?_, ?_, ?_⟩
  · unfold api_timeline
    rw [timelineItems_eq, List.length_map, timelineSlice_length]
    omega
  · unfold api_group_images
    cases hm : m.lookup g with
    | none =>
      rw [group_images_payload_none m g c2 _ ord hm]
      simp
    | some images =>
      rw [group_images m g c2 _ ord images hm]
      rw [List.length_map, groupSlice_length]
      omega
  · intro hlp hv
    subst hlp
    have heff : effective_limit (some v) = 20 := by
      show max 20 (min 500 v) = 20
      have h1 : min (500 : Int) v = v := min_eq_right (by omega)
      rw [h1]
      exact max_eq_left (by omega)
    refine ⟨heff, fun hrem => ?_⟩
    unfold api_timeline
    rw [timelineItems_eq, List.length_map, timelineSlice_length, heff]
    have : ((20 : Int)).toNat = 20 := rfl
    rw [this]
    omega

/-- Witness for claim C9 with a caller-supplied limit of 5 on a 21-item
sequence. -/
theorem claim_C9_witness :
    ((5 : Int) < 20) ∧
    effective_limit (some 5) = 20 ∧
    timelineStart (List.replicate 21 "p") none + 20 ≤ (List.replicate 21 "p").length ∧
    (timelineItems (api_timeline (List.replicate 21 "p") none (some 5))).length = 20 ∧
    effective_limit none = 120 :=
  ⟨by decide,
    ((claim_C9_limit_clamp (some 5) (List.replicate 21 "p") none [] "" none "desc"
      5).2.2.2.2.2 rfl (by decide)).1,
    by decide,
    ((claim_C9_limit_clamp (some 5) (List.replicate 21 "p") none [] "" none "desc"
      5).2.2.2.2.2 rfl (by decide)).2 (by decide),
    (claim_C9_limit_clamp none [] none [] "" none "desc" 0).2.2.1⟩

/-! ### Claim C4: cursor chaining over a fixed snapshot -/

theorem findIdx?_key_nodup {α : Type} (f : α → String) :
    ∀ (l : List α), (l.map f).Nodup → ∀ i (hi : i < l.length),
      l.findIdx? (fun x => f x == f (l.get ⟨i, hi⟩)) = some i := by
  intro l
  induction l with
  | nil => intro _ i hi; cases hi
  | cons a t ih =>
    intro hnd i hi
    match i with
    | 0 =>
      show (a :: t).findIdx? (fun x => f x == f a) 0 = some 0
      rw [List.findIdx?_cons, if_pos (by simp)]
    | j + 1 =>
      have hj : j < t.length := Nat.lt_of_succ_lt_succ hi
      have hj' : (a :: t).get ⟨j + 1, hi⟩ = t.get ⟨j, hj⟩ := rfl
      have hsplit := List.nodup_cons.mp (show (f a :: t.map f).Nodup from hnd)
      have hna : f a ≠ f (t.get ⟨j, hj⟩) := by
        intro he
        exact hsplit.1 (he ▸ List.mem_map_of_mem f (t.get_mem _ _))
      rw [hj']
      show (a :: t).findIdx? (fun x => f x == f (t.get ⟨j, hj⟩)) 0 = some (j + 1)
      rw [List.findIdx?_cons, if_neg (by simpa using hna), List.findIdx?_start_succ]
      rw [ih hsplit.2 j hj]
      rfl

theorem getLast?_slice {α : Type} (l : List α) (s k : Nat) (hk : 0 < k)
    (h : s + k ≤ l.length) :
    ((l.drop s).take k).getLast? = l[s + k - 1]? := by
  have hlen : ((l.drop s).take k).length = k := by
    rw [List.length_take, List.length_drop]
    omega
  rw [List.getLast?_eq_getElem?, hlen]
  rw [List.getElem?_take_of_lt (by omega : k - 1 < k)]
  rw [List.getElem?_drop]
  congr 1
  omega

/-- Repeated calls of `timeline_sections` with the same `paths` and `limit`,
feeding each returned `nextCursor` into the next call, collecting all items;
`fuel` bounds the number of pages. -/
def timelineChainAux (paths : List String) (limit : Nat) : Nat → Option String → List TItem
  | 0, _ => []
  | fuel + 1, cursor =>
    match (timeline_sections paths cursor limit).nextCursor with
    | none => timelineItems (timeline_sections paths cursor limit)
    | some c =>
      timelineItems (timeline_sections paths cursor limit) ++
        timelineChainAux paths limit fuel (some c)

/-- The full chain, started with no cursor. -/
def timelineChain (paths : List String) (limit : Nat) : List TItem :=
  timelineChainAux paths limit (paths.length + 1) none

/-- Repeated calls of `group_images_payload`, chaining `nextCursor`. -/
def groupChainAux (m : List (String × List ImageItem)) (g : String) (order : String)
    (limit : Nat) : Nat → Option String → List GItem
  | 0, _ => []
  | fuel + 1, cursor =>
    match (group_images_payload m g cursor limit order).nextCursor with
    | none => (group_images_payload m g cursor limit order).images
    | some c =>
      (group_images_payload m g cursor limit order).images ++
        groupChainAux m g order limit fuel (some c)

/-- The full group chain, started with no cursor. -/
def groupChain (m : List (String × List ImageItem)) (g : String) (order : String)
    (limit : Nat) : List GItem :=
  groupChainAux m g order limit
    ((match m.lookup g with | some images => images.length | none => 0) + 1) none

theorem timelineChainAux_eq (paths : List String) (k : Nat)
    (hnd : paths.Nodup) (hne : "" ∉ paths) (hk : 1 ≤ k) :
    ∀ fuel, ∀ cursor, paths.length - timelineStart paths cursor ≤ fuel →
      timelineChainAux paths k fuel cursor =
        (paths.drop (timelineStart paths cursor)).map timelineItemOf := by
  intro fuel
  induction fuel with
  | zero =>
    intro cursor h
    rw [List.drop_eq_nil_of_le (by omega)]
    rfl
  | succ fuel ih =>
    intro cursor h
    have hslen := timelineSlice_length paths cursor k
    by_cases hcond : timelineStart paths cursor + (timelineSlice paths cursor k).length <
        paths.length
    · have hlt : timelineStart paths cursor + k < paths.length + 1 := by omega
      have hkeq : (timelineSlice paths cursor k).length = k := by omega
      have hse : timelineStart paths cursor + k - 1 < paths.length := by omega
      have hlast : (timelineSlice paths cursor k).getLast? =
          some (paths.get ⟨timelineStart paths cursor + k - 1, hse⟩) := by
        unfold timelineSlice
        rw [getLast?_slice paths _ k (by omega) (by omega),
          List.getElem?_eq_getElem hse]
        rfl
      have hnc : (timeline_sections paths cursor k).nextCursor =
          some (paths.get ⟨timelineStart paths cursor + k - 1, hse⟩) := by
        rw [timeline_nextCursor_eq, if_pos hcond, hlast]
      have hee : paths.get ⟨timelineStart paths cursor + k - 1, hse⟩ ≠ "" := by
        intro h0
        exact hne (h0 ▸ paths.get_mem _ _)
      have hfind : paths.findIdx?
          (· == paths.get ⟨timelineStart paths cursor + k - 1, hse⟩) =
          some (timelineStart paths cursor + k - 1) :=
        findIdx?_key_nodup (fun s => s) paths (by simpa using hnd) _ hse
      have hstart' : timelineStart paths
          (some (paths.get ⟨timelineStart paths cursor + k - 1, hse⟩)) =
          timelineStart paths cursor + k := by
        show (if paths.get ⟨timelineStart paths cursor + k - 1, hse⟩ = "" then 0
          else
            match paths.findIdx?
                (· == paths.get ⟨timelineStart paths cursor + k - 1, hse⟩) with
            | some i => i + 1
            | none => 0) = timelineStart paths cursor + k
        rw [if_neg hee, hfind]
        show timelineStart paths cursor + k - 1 + 1 = timelineStart paths cursor + k
        omega
      simp only [timelineChainAux]
      rw [hnc]
      show timelineItems (timeline_sections paths cursor k) ++
          timelineChainAux paths k fuel
            (some (paths.get ⟨timelineStart paths cursor + k - 1, hse⟩)) =
          (paths.drop (timelineStart paths cursor)).map timelineItemOf
      rw [timelineItems_eq, ih _ (by rw [hstart']; omega), hstart']
      rw [← List.map_append]
      congr 1
      unfold timelineSlice
      have hdd : paths.drop (timelineStart paths cursor + k) =
          (paths.drop (timelineStart paths cursor)).drop k := by
        rw [List.drop_drop]
      rw [hdd, List.take_append_drop]
    · have hslice : timelineSlice paths cursor k =
          paths.drop (timelineStart paths cursor) := by
        unfold timelineSlice
        exact List.take_of_length_le (by rw [List.length_drop]; omega)
      have hnc : (timeline_sections paths cursor k).nextCursor = none := by
        rw [timeline_nextCursor_eq, if_neg hcond]
      simp only [timelineChainAux]
      rw [hnc]
      show timelineItems (timeline_sections paths cursor k) =
        (paths.drop (timelineStart paths cursor)).map timelineItemOf
      rw [timelineItems_eq, hslice]

theorem groupChainAux_eq (m : List (String × List ImageItem)) (g order : String)
    (k : Nat) (images seq : List ImageItem)
    (hm : m.lookup g = some images)
    (hseq : (if order = "desc" then images else images.reverse) = seq)
    (hnd : (seq.map (fun it => it.path)).Nodup)
    (hne : "" ∉ seq.map (fun it => it.path))
    (hk : 1 ≤ k) :
    ∀ fuel, ∀ cursor, seq.length - groupStart seq cursor ≤ fuel →
      groupChainAux m g order k fuel cursor =
        (seq.drop (groupStart seq cursor)).map
          (fun it => ⟨it.name, it.path, it.dateHint⟩) := by
  intro fuel
  induction fuel with
  | zero =>
    intro cursor h
    rw [List.drop_eq_nil_of_le (by omega)]
    rfl
  | succ fuel ih =>
    intro cursor h
    have hNC := group_nextCursor m g cursor k order images hm
    have hIM := group_images m g cursor k order images hm
    rw [hseq] at hNC hIM
    have hslen := groupSlice_length seq cursor k
    by_cases hcond : groupStart seq cursor + (groupSlice seq cursor k).length < seq.length
    · have hse : groupStart seq cursor + k - 1 < seq.length := by omega
      have hlast : (groupSlice seq cursor k).getLast? =
          some (seq.get ⟨groupStart seq cursor + k - 1, hse⟩) := by
        unfold groupSlice
        rw [getLast?_slice seq _ k (by omega) (by omega), List.getElem?_eq_getElem hse]
        rfl
      have hnc : (group_images_payload m g cursor k order).nextCursor =
          some (seq.get ⟨groupStart seq cursor + k - 1, hse⟩).path := by
        rw [hNC, if_pos hcond, hlast]
        rfl
      have hee : (seq.get ⟨groupStart seq cursor + k - 1, hse⟩).path ≠ "" := by
        intro h0
        exact hne (h0 ▸ List.mem_map_of_mem _ (seq.get_mem _ _))
      have hfind : seq.findIdx?
          (fun it => it.path == (seq.get ⟨groupStart seq cursor + k - 1, hse⟩).path) =
          some (groupStart seq cursor + k - 1) :=
        findIdx?_key_nodup (fun it => it.path) seq hnd _ hse
      have hstart' : groupStart seq
          (some (seq.get ⟨groupStart seq cursor + k - 1, hse⟩).path) =
          groupStart seq cursor + k := by
        show (if (seq.get ⟨groupStart seq cursor + k - 1, hse⟩).path = "" then 0
          else
            match seq.findIdx?
                (fun it => it.path ==
                  (seq.get ⟨groupStart seq cursor + k - 1, hse⟩).path) with
            | some i => i + 1
            | none => 0) = groupStart seq cursor + k
        rw [if_neg hee, hfind]
        show groupStart seq cursor + k - 1 + 1 = groupStart seq cursor + k
        omega
      simp only [groupChainAux]
      rw [hnc]
      show (group_images_payload m g cursor k order).images ++
          groupChainAux m g order k fuel
            (some (seq.get ⟨groupStart seq cursor + k - 1, hse⟩).path) =
          (seq.drop (groupStart seq cursor)).map (fun it => ⟨it.name, it.path, it.dateHint⟩)
      rw [hIM, ih _ (by rw [hstart']; omega), hstart']
      rw [← List.map_append]
      congr 1
      unfold groupSlice
      have hdd : seq.drop (groupStart seq cursor + k) =
          (seq.drop (groupStart seq cursor)).drop k := by
        rw [List.drop_drop]
      rw [hdd, List.take_append_drop]
    · have hslice : groupSlice seq cursor k = seq.drop (groupStart seq cursor) := by
        unfold groupSlice
        exact List.take_of_length_le (by rw [List.length_drop]; omega)
      have hnc : (group_images_payload m g cursor k order).nextCursor = none := by
        rw [hNC, if_neg hcond]
      simp only [groupChainAux]
      rw [hnc]
      show (group_images_payload m g cursor k order).images =
        (seq.drop (groupStart seq cursor)).map (fun it => ⟨it.name, it.path, it.dateHint⟩)
      rw [hIM, hslice]

/-- Claim C4 (confirmed, with the sequence's item identifiers assumed unique
and nonempty, as relative paths are): over a fixed snapshot, repeatedly
paginating with limit `k ≥ 1` and chaining `nextCursor` yields exactly the
items of a single call with limit = length, in order, with no duplicates and
no gaps — for both the timeline and the group-images paginator; and
`nextCursor` is the identifier of the last item of each returned page,
absent exactly when the page is empty or reaches the end of the sequence. -/
theorem claim_C4_pagination_chain
    (paths : List String) (k : Nat)
    (m : List (String × List ImageItem)) (g : String) (images : List ImageItem)
    (ord : String) (k2 : Nat)
    (cursor : Option String) (l : Nat) (c2 : Option String) (l2 : Nat)
    (hnd : paths.Nodup) (hne : "" ∉ paths) (hk : 1 ≤ k)
    (hm : m.lookup g = some images)
    (hnd2 : (images.map (fun it => it.path)).Nodup)
    (hne2 : "" ∉ images.map (fun it => it.path)) (hk2 : 1 ≤ k2) :
    timelineChain paths k = timelineItems (timeline_sections paths none paths.length) ∧
    groupChain m g ord k2 =
      (group_images_payload m g none images.length ord).images ∧
    (timelineItems (timeline_sections paths cursor l) = [] →
      (timeline_sections paths cursor l).nextCursor = none) ∧
    (timelineItems (timeline_sections paths cursor l) ≠ [] →
      timelineStart paths cursor +
          (timelineItems (timeline_sections paths cursor l)).length < paths.length →
      (timeline_sections paths cursor l).nextCursor =
        ((timelineItems (timeline_sections paths cursor l)).getLast?).map
          (fun it => it.path)) ∧
    (timelineItems (timeline_sections paths cursor l) ≠ [] →
      paths.length ≤
        timelineStart paths cursor +
          (timelineItems (timeline_sections paths cursor l)).length →
      (timeline_sections paths cursor l).nextCursor = none) ∧
    ((group_images_payload m g c2 l2 ord).images = [] →
      (group_images_payload m g c2 l2 ord).nextCursor = none) ∧
    ((group_images_payload m g c2 l2 ord).images ≠ [] →
      groupStart (if ord = "desc" then images else images.reverse) c2 +
          ((group_images_payload m g c2 l2 ord).images).length <
          (if ord = "desc" then images else images.reverse).length →
      (group_images_payload m g c2 l2 ord).nextCursor =
        (((group_images_payload m g c2 l2 ord).images).getLast?).map
          (fun it => it.path)) ∧
    ((group_images_payload m g c2 l2 ord).images ≠ [] →
      (if ord = "desc" then images else images.reverse).length ≤
        groupStart (if ord = "desc" then images else images.reverse) c2 +
          ((group_images_payload m g c2 l2 ord).images).length →
      (group_images_payload m g c2 l2 ord).nextCursor = none) := by
  have hseqnd : (((if ord = "desc" then images else images.reverse)).map
      (fun it => it.path)).Nodup := by
    by_cases ho : ord = "desc"
    · rwa [if_pos ho]
    · rw [if_neg ho, List.map_reverse, List.nodup_reverse]
      exact hnd2
  have hseqne : "" ∉ ((if ord = "desc" then images else images.reverse)).map
      (fun it => it.path) := by
    by_cases ho : ord = "desc"
    · rwa [if_pos ho]
    · rw [if_neg ho, List.map_reverse, List.mem_reverse]
      exact hne2
  have hseqlen : ((if ord = "desc" then images else images.reverse)).length =
      images.length := by
    by_cases ho : ord = "desc"
    · rw [if_pos ho]
    · rw [if_neg ho, List.length_reverse]
  refine ⟨?_, ?_, ?_, ?_, ?_, ?_, ?_, ?_⟩
  · unfold timelineChain
    rw [timelineChainAux_eq paths k hnd hne hk (paths.length + 1) none (by omega)]
    rw [timelineItems_eq]
    show paths.map timelineItemOf = (timelineSlice paths none paths.length).map timelineItemOf
    unfold timelineSlice
    rw [show timelineStart paths none = 0 from rfl, List.drop_zero,
      List.take_of_length_le (le_refl _)]
  · unfold groupChain
    rw [show (match m.lookup g with
        | some images => images.length
        | none => 0) = images.length by rw [hm]]
    rw [groupChainAux_eq m g ord k2 images
      (if ord = "desc" then images else images.reverse) hm rfl hseqnd hseqne hk2
      (images.length + 1) none (by omega)]
    rw [group_images m g none images.length ord images hm]
    show ((if ord = "desc" then images else images.reverse).drop
        (groupStart (if ord = "desc" then images else images.reverse) none)).map _ = _
    rw [show groupStart (if ord = "desc" then images else images.reverse) none = 0 from rfl,
      List.drop_zero]
    unfold groupSlice
    rw [show groupStart (if ord = "desc" then images else images.reverse) none = 0 from rfl,
      List.drop_zero, List.take_of_length_le (by rw [hseqlen])]
  · intro hit
    rw [timelineItems_eq] at hit
    have hsl : timelineSlice paths cursor l = [] := List.map_eq_nil_iff.1 hit
    rw [timeline_nextCursor_eq, hsl]
    simp
  · intro hit hlen
    rw [timelineItems_eq] at hit hlen ⊢
    rw [List.length_map] at hlen
    rw [timeline_nextCursor_eq, if_pos hlen, List.getLast?_map, Option.map_map]
    cases hlast : (timelineSlice paths cursor l).getLast? with
    | none => rfl
    | some p => rfl
  · intro hit hlen
    rw [timelineItems_eq] at hlen
    rw [List.length_map] at hlen
    rw [timeline_nextCursor_eq, if_neg (by omega)]
  · intro hit
    rw [group_images m g c2 l2 ord images hm] at hit
    have hsl : groupSlice (if ord = "desc" then images else images.reverse) c2 l2 = [] :=
      List.map_eq_nil_iff.1 hit
    rw [group_nextCursor m g c2 l2 ord images hm, hsl]
    simp
  · intro hit hlen
    rw [group_images m g c2 l2 ord images hm] at hit hlen ⊢
    rw [List.length_map] at hlen
    rw [group_nextCursor m g c2 l2 ord images hm, if_pos hlen, List.getLast?_map,
      Option.map_map]
    cases hlast : (groupSlice (if ord = "desc" then images else images.reverse)
        c2 l2).getLast? with
    | none => rfl
    | some p => rfl
  · intro hit hlen
    rw [group_images m g c2 l2 ord images hm] at hlen
    rw [List.length_map] at hlen
    rw [group_nextCursor m g c2 l2 ord images hm, if_neg (by omega)]

/-- Witness for claim C4: chaining pages of size 2 (timeline) and 1 (group)
over concrete snapshots agrees with a single full-length page. -/
theorem claim_C4_witness :
    (["2022/a.jpg", "2022/b.jpg", "2022/c.jpg"] : List String).Nodup ∧
    (([mkImageItem "g/a.jpg", mkImageItem "g/b.jpg"] : List ImageItem).map
      (fun it => it.path)).Nodup ∧
    timelineChain ["2022/a.jpg", "2022/b.jpg", "2022/c.jpg"] 2 =
      timelineItems (timeline_sections ["2022/a.jpg", "2022/b.jpg", "2022/c.jpg"] none
        (["2022/a.jpg", "2022/b.jpg", "2022/c.jpg"] : List String).length) ∧
    groupChain [("g", [mkImageItem "g/a.jpg", mkImageItem "g/b.jpg"])] "g" "desc" 1 =
      (group_images_payload [("g", [mkImageItem "g/a.jpg", mkImageItem "g/b.jpg"])] "g"
        none ([mkImageItem "g/a.jpg", mkImageItem "g/b.jpg"] : List ImageItem).length
        "desc").images :=
  ⟨by decide, by decide,
    (claim_C4_pagination_chain ["2022/a.jpg", "2022/b.jpg", "2022/c.jpg"] 2
      [("g", [mkImageItem "g/a.jpg", mkImageItem "g/b.jpg"])] "g"
      [mkImageItem "g/a.jpg", mkImageItem "g/b.jpg"] "desc" 1 none 2 none 1
      (by decide) (by decide) (by decide) (by decide) (by decide) (by decide)
      (by decide)).1,
    (claim_C4_pagination_chain ["2022/a.jpg", "2022/b.jpg", "2022/c.jpg"] 2
      [("g", [mkImageItem "g/a.jpg", mkImageItem "g/b.jpg"])] "g"
      [mkImageItem "g/a.jpg", mkImageItem "g/b.jpg"] "desc" 1 none 2 none 1
      (by decide) (by decide) (by decide) (by decide) (by decide) (by decide)
      (by decide)).2.1⟩

/-! ### Claim C7: `next_folder_first_image` (src/app.py lines 134-166)

The filesystem is modelled by a finite tree; a directory's `children` list
stands for the unspecified `iterdir`/`scandir` order, which the source always
sorts by lowercased name before use. -/

inductive FSNode where
  | dir (name : String) (children : List FSNode)
  | file (name : String)

def FSNode.name : FSNode → String
  | .dir n _ => n
  | .file n => n

def FSNode.isDirB : FSNode → Bool
  | .dir _ _ => true
  | .file _ => false

def FSNode.childrenList : FSNode → List FSNode
  | .dir _ ch => ch
  | .file _ => []

/-- Embedding of `is_ignored_name` (src/app.py lines 35 and 58-59). -/
def is_ignored_name (n : String) : Bool :=
  n == ".Trash-1000" || startsWithStr n "."

/-- Index of the last "." of a name, if any. -/
def lastDotIdx (l : List Char) : Option Nat :=
  match l.reverse.findIdx? (· == '.') with
  | some j => some (l.length - 1 - j)
  | none => none

/-- Python's `Path.suffix`: the extension of the final component, "" when the
last dot is the leading character or the final one. -/
def pathSuffix (name : String) : String :=
  match lastDotIdx name.data with
  | some i =>
    if 0 < i ∧ i + 1 < name.data.length then String.mk (name.data.drop i) else ""
  | none => ""

/-- Embedding of `SUPPORTED_EXTENSIONS` (src/app.py lines 24-33). -/
def SUPPORTED_EXTENSIONS : List String :=
  [".jpg", ".jpeg", ".png", ".gif", ".bmp", ".tif", ".tiff", ".webp"]

/-- Test `entry.suffix.lower() in lowered_exts` (src/app.py lines 88, 94). -/
def isImageName (n : String) : Bool :=
  (SUPPORTED_EXTENSIONS.map lowerStr).contains (lowerStr (pathSuffix n))

/-- Case-insensitive name order used by every directory listing
(`key=lambda p: p.name.lower()` / `key=str.lower`). -/
def nameLE (a b : FSNode) : Prop := strLeB (lowerStr a.name) (lowerStr b.name) = true

instance : DecidableRel nameLE :=
  fun a b => instDecidableEqBool (strLeB (lowerStr a.name) (lowerStr b.name)) true

instance : IsTotal FSNode nameLE where
  total _ _ := strLeB_total _ _

instance : IsTrans FSNode nameLE where
  trans _ _ _ h₁ h₂ := strLeB_trans h₁ h₂

/-- Embedding of `iter_directories(path)` (src/app.py lines 74-77): all
entries sorted by lowercased name, keeping non-ignored directories. -/
def iter_directories_nodes (t : FSNode) : List FSNode :=
  (List.insertionSort nameLE t.childrenList).filter
    (fun e => e.isDirB && !is_ignored_name e.name)

/-- The files of a directory in the sorted order `os.walk` + `sorted(files,
key=str.lower)` produces (src/app.py line 93). -/
def walkFiles (t : FSNode) : List FSNode :=
  List.insertionSort nameLE (t.childrenList.filter (fun e => !e.isDirB))

/-- The subdirectories `os.walk` descends into: ignored names pruned, sorted
by lowercased name (src/app.py lines 91-92). -/
def walkDirs (t : FSNode) : List FSNode :=
  List.insertionSort nameLE
    (t.childrenList.filter (fun e => e.isDirB && !is_ignored_name e.name))

mutual

/-- Depth of a tree, used as recursion fuel for the walk. -/
def depthNode : FSNode → Nat
  | .file _ => 0
  | .dir _ ch => depthList ch + 1

def depthList : List FSNode → Nat
  | [] => 0
  | c :: cs => max (depthNode c) (depthList cs)

end

/-- Embedding of `iter_images_recursive` (src/app.py lines 87-98): top-down
walk emitting the image files of each directory (sorted by lowercased name)
before descending into its subdirectories in sorted order; `pfx` is the
path of the current directory relative to the root. -/
def walkImagesAux : Nat → List String → FSNode → List (List String)
  | 0, _, _ => []
  | fuel + 1, pfx, t =>
    match t with
    | .file _ => []
    | .dir _ _ =>
      ((walkFiles t).filter (fun f => isImageName f.name)).map
          (fun f => pfx ++ [f.name]) ++
        (walkDirs t).flatMap (fun d => walkImagesAux fuel (pfx ++ [d.name]) d)

/-- Directory node at a relative path (each segment resolved by name among
the children). -/
def nodeAt : FSNode → List String → Option FSNode
  | t, [] => some t
  | t, seg :: rest =>
    match t.childrenList.find? (fun c => c.name == seg) with
    | some c => nodeAt c rest
    | none => none

/-- The relative paths of `iter_directories` at a directory path. -/
def childDirPaths (root : FSNode) (p : List String) : List (List String) :=
  match nodeAt root p with
  | some t => (iter_directories_nodes t).map (fun d => p ++ [d.name])
  | none => []

/-- Embedding of `first_image_in_tree(path)` (src/app.py lines 128-131). -/
def first_image_in_tree (root : FSNode) (p : List String) : Option (List String) :=
  match nodeAt root p with
  | some t => (walkImagesAux (depthNode t) p t).head?
  | none => none

/-- First image over a candidate directory list (the `for candidate … if
found: return found` loops). -/
def findFirstImage (root : FSNode) (cands : List (List String)) : Option (List String) :=
  cands.findSome? (first_image_in_tree root)

/-- Embedding of `next_folder_first_image(root, target)` (src/app.py lines
134-166), by structural recursion on the reversed target path (the source
recurses on `target.parent`).  Directory identity (`Path` equality) is
segment-list equality.  Note the `parent == root` branch: the source computes
`parent_siblings.index(parent)` where `parent` is the root itself, which is
never among its own children, so the `except ValueError` fallback of `-1`
always fires and the loop scans `parent_siblings[0:]` — all top-level
directories from the beginning. -/
def nfiRev (root : FSNode) : List String → Option (List String)
  | [] => findFirstImage root (childDirPaths root [])
  | x :: revParent =>
    let parent := revParent.reverse
    let target := parent ++ [x]
    let siblings := childDirPaths root parent
    let after :=
      match siblings.findIdx? (· == target) with
      | some i => siblings.drop (i + 1)
      | none => siblings
    match findFirstImage root after with
    | some found => some found
    | none =>
      if revParent.isEmpty then
        let psibs := childDirPaths root []
        let pafter :=
          match psibs.findIdx? (· == parent) with
          | some i => psibs.drop (i + 1)
          | none => psibs
        findFirstImage root pafter
      else nfiRev root revParent

def next_folder_first_image (root : FSNode) (target : List String) :
    Option (List String) :=
  nfiRev root target.reverse

/-- Tree with two top-level directories: `A` (containing `a.jpg`) and `B`
(empty). -/
def exTree : FSNode :=
  .dir "root" [.dir "A" [.file "a.jpg"], .dir "B" []]

/-- Claim C7 fails on the code (code bug): with `B` the last top-level
directory, no image after it in the claimed search order, and only the
earlier sibling `A` containing an image, `next_folder_first_image` returns
`A/a.jpg` instead of the absent value the claim (and spec §6) require: the
terminal `parent == root` step always falls back to index `-1` (the root is
never among its own children) and re-scans all top-level directories from the
beginning. -/
theorem claim_C7_next_folder_wraps_around :
    childDirPaths exTree [] = [["A"], ["B"]] ∧
    first_image_in_tree exTree ["B"] = none ∧
    next_folder_first_image exTree ["B"] = some ["A", "a.jpg"] :=
  ⟨by decide, by decide, by decide⟩

/-! ### Claim C8: `thumbnail_cache_key` (src/app.py lines 662-665)

The key is `sha256(f"{path}|{size}|{mtime_ns}|{max_size}".encode()).hexdigest()`.
SHA-256 is implemented below over byte lists, with 32-bit words as `Nat`
reduced modulo `2^32`. -/

def mod32 (n : Nat) : Nat := n % 4294967296

def rotr32 (n x : Nat) : Nat := mod32 ((x >>> n) ||| (x <<< (32 - n)))

def xor3 (a b c : Nat) : Nat := (a ^^^ b) ^^^ c

def bigSigma0 (x : Nat) : Nat := xor3 (rotr32 2 x) (rotr32 13 x) (rotr32 22 x)

def bigSigma1 (x : Nat) : Nat := xor3 (rotr32 6 x) (rotr32 11 x) (rotr32 25 x)

def smallSigma0 (x : Nat) : Nat := xor3 (rotr32 7 x) (rotr32 18 x) (x >>> 3)

def smallSigma1 (x : Nat) : Nat := xor3 (rotr32 17 x) (rotr32 19 x) (x >>> 10)

def chBits (e f g : Nat) : Nat := (e &&& f) ^^^ ((e ^^^ 4294967295) &&& g)

def majBits (a b c : Nat) : Nat := xor3 (a &&& b) (a &&& c) (b &&& c)

/-- The 64 SHA-256 round constants (FIPS 180-4 §4.2.2). -/
def K256 : List Nat :=
  [1116352408, 1899447441, 3049323471, 3921009573, 961987163, 1508970993, 2453635748, 2870763221,
    3624381080, 310598401, 607225278, 1426881987, 1925078388, 2162078206, 2614888103, 3248222580,
    3835390401, 4022224774, 264347078, 604807628, 770255983, 1249150122, 1555081692, 1996064986,
    2554220882, 2821834349, 2952996808, 3210313671, 3336571891, 3584528711, 113926993, 338241895,
    666307205, 773529912, 1294757372, 1396182291, 1695183700, 1986661051, 2177026350, 2456956037,
    2730485921, 2820302411, 3259730800, 3345764771, 3516065817, 3600352804, 4094571909, 275423344,
    430227734, 506948616, 659060556, 883997877, 958139571, 1322822218, 1537002063, 1747873779,
    1955562222, 2024104815, 2227730452, 2361852424, 2428436474, 2756734187, 3204031479, 3329325298]

/-- Working state of the compression function. -/
structure SHAState where
  a : Nat
  b : Nat
  c : Nat
  d : Nat
  e : Nat
  f : Nat
  g : Nat
  h : Nat

/-- The initial hash value (FIPS 180-4 §5.3.3). -/
def H256 : SHAState :=
  ⟨1779033703, 3144134277, 1013904242, 2773480762,
    1359893119, 2600822924, 528734635, 1541459225⟩

/-- Big-endian 8-byte encoding of the bit length. -/
def be64 (n : Nat) : List Nat :=
  (List.range 8).map (fun i => (n >>> (8 * (7 - i))) % 256)

/-- SHA-256 padding: `0x80`, zeros to 56 mod 64, then the 64-bit big-endian
bit length. -/
def sha256Pad (msg : List Nat) : List Nat :=
  msg ++ 128 :: List.replicate ((119 - msg.length % 64) % 64) 0 ++ be64 (8 * msg.length)

def chunksAux : Nat → List Nat → List (List Nat)
  | 0, _ => []
  | fuel + 1, l => if l.isEmpty then [] else l.take 64 :: chunksAux fuel (l.drop 64)

/-- Split into 64-byte blocks. -/
def chunks64 (l : List Nat) : List (List Nat) := chunksAux l.length l

/-- The 32-bit word at index `i` of a block (big-endian). -/
def beWordAt (block : List Nat) (i : Nat) : Nat :=
  block.getD (4 * i) 0 * 16777216 + block.getD (4 * i + 1) 0 * 65536 +
    block.getD (4 * i + 2) 0 * 256 + block.getD (4 * i + 3) 0

def scheduleAux : Nat → List Nat → List Nat
  | 0, w => w
  | n + 1, w =>
    scheduleAux n (w ++ [mod32 (smallSigma1 (w.getD (w.length - 2) 0) +
      w.getD (w.length - 7) 0 + smallSigma0 (w.getD (w.length - 15) 0) +
      w.getD (w.length - 16) 0)])

/-- Message schedule `W₀ … W₆₃` of a block (FIPS 180-4 §6.2.2 step 1). -/
def schedule (block : List Nat) : List Nat :=
  scheduleAux 48 ((List.range 16).map (beWordAt block))

/-- One round of the compression function (FIPS 180-4 §6.2.2 step 3). -/
def compressRound (st : SHAState) (kw : Nat × Nat) : SHAState :=
  let t1 := mod32 (st.h + bigSigma1 st.e + chBits st.e st.f st.g + kw.1 + kw.2)
  let t2 := mod32 (bigSigma0 st.a + majBits st.a st.b st.c)
  ⟨mod32 (t1 + t2), st.a, st.b, st.c, mod32 (st.d + t1), st.e, st.f, st.g⟩

/-- One block of the compression function, including the final feed-forward
addition (FIPS 180-4 §6.2.2 step 4). -/
def compressBlock (hs : SHAState) (block : List Nat) : SHAState :=
  let st := ((K256.zip (schedule block)).foldl compressRound hs)
  ⟨mod32 (hs.a + st.a), mod32 (hs.b + st.b), mod32 (hs.c + st.c), mod32 (hs.d + st.d),
    mod32 (hs.e + st.e), mod32 (hs.f + st.f), mod32 (hs.g + st.g), mod32 (hs.h + st.h)⟩

/-- The SHA-256 state after hashing a byte message. -/
def sha256State (msg : List Nat) : SHAState :=
  (chunks64 (sha256Pad msg)).foldl compressBlock H256

/-- The SHA-256 digest of a byte message as a 256-bit natural number. -/
def sha256Nat (msg : List Nat) : Nat :=
  [(sha256State msg).a, (sha256State msg).b, (sha256State msg).c, (sha256State msg).d,
    (sha256State msg).e, (sha256State msg).f, (sha256State msg).g,
    (sha256State msg).h].foldl (fun acc w => acc * 4294967296 + mod32 w) 0

/-- One lowercase hexadecimal digit. -/
def hexChar (n : Nat) : Char :=
  if n < 10 then digitChar n else Char.ofNat (87 + n % 16)

/-- The 64-character lowercase hex rendering of a 256-bit digest
(`hexdigest()`). -/
def natToHex64 (n : Nat) : String :=
  String.mk ((List.range 64).map (fun i => hexChar ((n >>> (4 * (63 - i))) % 16)))

/-- UTF-8 encoding of one character. -/
def charUtf8 (c : Char) : List Nat :=
  let n := c.toNat
  if n < 128 then [n]
  else if n < 2048 then [192 + n / 64, 128 + n % 64]
  else if n < 65536 then [224 + n / 4096, 128 + (n / 64) % 64, 128 + n % 64]
  else [240 + n / 262144, 128 + (n / 4096) % 64, 128 + (n / 64) % 64, 128 + n % 64]

/-- UTF-8 encoding of a string (`str.encode("utf-8")`). -/
def utf8Bytes (s : String) : List Nat := s.data.flatMap charUtf8

/-- The fingerprint string
`f"{image_path.resolve()}|{stat.st_size}|{stat.st_mtime_ns}|{max_size}"`
(src/app.py line 664), as a function of the resolved path and the three
nonnegative integers. -/
def fingerprint (resolvedPath : String) (st_size st_mtime_ns max_size : Nat) : String :=
  resolvedPath ++ "|" ++ natRepr st_size ++ "|" ++ natRepr st_mtime_ns ++ "|" ++
    natRepr max_size

/-- Embedding of `thumbnail_cache_key(image_path, max_size)` (src/app.py
lines 662-665), as a function of the four components of the fingerprint. -/
def thumbnail_cache_key (resolvedPath : String) (st_size st_mtime_ns max_size : Nat) :
    String :=
  natToHex64 (sha256Nat (utf8Bytes (fingerprint resolvedPath st_size st_mtime_ns max_size)))

theorem foldl_words_lt (ws : List Nat) :
    ∀ acc : Nat, ws.foldl (fun acc w => acc * 4294967296 + mod32 w) acc <
      (acc + 1) * 4294967296 ^ ws.length := by
  induction ws with
  | nil =>
    intro acc
    simp only [List.foldl_nil, List.length_nil, pow_zero, mul_one]
    exact Nat.lt_succ_self acc
  | cons w ws ih =>
    intro acc
    have hm : mod32 w < 4294967296 := Nat.mod_lt _ (by omega)
    calc (w :: ws).foldl (fun acc w => acc * 4294967296 + mod32 w) acc
        = ws.foldl (fun acc w => acc * 4294967296 + mod32 w)
            (acc * 4294967296 + mod32 w) := rfl
      _ < (acc * 4294967296 + mod32 w + 1) * 4294967296 ^ ws.length := ih _
      _ ≤ ((acc + 1) * 4294967296) * 4294967296 ^ ws.length := by
          apply Nat.mul_le_mul_right
          have : acc * 4294967296 + mod32 w + 1 ≤ acc * 4294967296 + 4294967296 := by omega
          calc acc * 4294967296 + mod32 w + 1 ≤ acc * 4294967296 + 4294967296 := this
            _ = (acc + 1) * 4294967296 := by ring
      _ = (acc + 1) * 4294967296 ^ (ws.length + 1) := by ring
      _ = (acc + 1) * 4294967296 ^ (w :: ws).length := by rw [List.length_cons]

theorem sha256Nat_lt (msg : List Nat) : sha256Nat msg < 2 ^ 256 := by
  have h := foldl_words_lt [(sha256State msg).a, (sha256State msg).b, (sha256State msg).c,
    (sha256State msg).d, (sha256State msg).e, (sha256State msg).f, (sha256State msg).g,
    (sha256State msg).h] 0
  have h8 : ((4294967296 : Nat)) ^ (8 : Nat) = 2 ^ 256 := by norm_num
  unfold sha256Nat
  calc _ < (0 + 1) * 4294967296 ^
        ([(sha256State msg).a, (sha256State msg).b, (sha256State msg).c, (sha256State msg).d,
          (sha256State msg).e, (sha256State msg).f, (sha256State msg).g,
          (sha256State msg).h]).length := h
    _ = 2 ^ 256 := by
        rw [show ([(sha256State msg).a, (sha256State msg).b, (sha256State msg).c,
          (sha256State msg).d, (sha256State msg).e, (sha256State msg).f, (sha256State msg).g,
          (sha256State msg).h]).length = 8 from rfl, h8]
        ring

/-- Counterexample to claim C8 as stated: the key is a 256-bit SHA-256 digest
while the fingerprint domain is infinite, so by pigeonhole two inputs with
different resolved paths share the same key; the "keys always differ" half of
the claim is therefore false (no explicit collision can be exhibited, but the
negation is provable). -/
theorem claim_C8_counterexample :
    ¬ (∀ (p1 : String) (s1 t1 d1 : Nat) (p2 : String) (s2 t2 d2 : Nat),
        (p1 ≠ p2 ∨ s1 ≠ s2 ∨ t1 ≠ t2 ∨ d1 ≠ d2) →
        thumbnail_cache_key p1 s1 t1 d1 ≠ thumbnail_cache_key p2 s2 t2 d2) := by
  intro hcl
  obtain ⟨i, j, hij, hfeq⟩ :=
    Fintype.exists_ne_map_eq_of_card_lt
      (fun i : Fin (2 ^ 256 + 1) =>
        (⟨sha256Nat (utf8Bytes (fingerprint (String.mk (List.replicate (i.val + 1) 'a'))
          0 0 0)), sha256Nat_lt _⟩ : Fin (2 ^ 256)))
      (by rw [Fintype.card_fin, Fintype.card_fin]; exact Nat.lt_succ_self (2 ^ 256))
  have hpath : String.mk (List.replicate (i.val + 1) 'a') ≠
      String.mk (List.replicate (j.val + 1) 'a') := by
    intro he
    apply hij
    have hlen := congrArg (fun s : String => s.data.length) he
    simp only [List.length_replicate] at hlen
    exact Fin.ext (by omega)
  have hkey : thumbnail_cache_key (String.mk (List.replicate (i.val + 1) 'a')) 0 0 0 =
      thumbnail_cache_key (String.mk (List.replicate (j.val + 1) 'a')) 0 0 0 := by
    unfold thumbnail_cache_key
    exact congrArg natToHex64 (congrArg Fin.val hfeq)
  exact hcl _ _ _ _ _ _ _ _ (Or.inl hpath) hkey

theorem natRepr_ne_bar {n : Nat} {c : Char} (h : c ∈ (natRepr n).data) : c ≠ '|' := by
  intro he
  have := natRepr_isDigit h
  rw [he] at this
  exact absurd this (by decide)

theorem bar_split : ∀ (a b r r' : List Char), '|' ∉ a → '|' ∉ b →
    a ++ '|' :: r = b ++ '|' :: r' → a = b ∧ r = r' := by
  intro a
  induction a with
  | nil =>
    intro b r r' _ hb h
    cases b with
    | nil =>
      simp only [List.nil_append] at h
      exact ⟨rfl, (List.cons.injEq _ _ _ _ ▸ h).2⟩
    | cons c bs =>
      simp only [List.nil_append, List.cons_append, List.cons.injEq] at h
      exact absurd (h.1.symm ▸ List.mem_cons_self c bs) hb
  | cons c as ih =>
    intro b r r' ha hb h
    cases b with
    | nil =>
      simp only [List.cons_append, List.nil_append, List.cons.injEq] at h
      exact absurd (h.1 ▸ List.mem_cons_self c as) ha
    | cons c' bs =>
      simp only [List.cons_append, List.cons.injEq] at h
      have hrec := ih bs r r' (fun hm => ha (List.mem_cons_of_mem c hm))
        (fun hm => hb (List.mem_cons_of_mem c' hm)) h.2
      exact ⟨by rw [h.1, hrec.1], hrec.2⟩

theorem fingerprint_data_rev (p : String) (s t d : Nat) :
    (fingerprint p s t d).data.reverse =
      (natRepr d).data.reverse ++ '|' :: ((natRepr t).data.reverse ++
        '|' :: ((natRepr s).data.reverse ++ '|' :: p.data.reverse)) := by
  unfold fingerprint
  simp [String.data_append, List.reverse_append]

theorem natRepr_rev_ne_bar {n : Nat} : '|' ∉ (natRepr n).data.reverse := by
  intro hm
  exact natRepr_ne_bar (List.mem_reverse.1 hm) rfl

theorem natRepr_eq_of_data_rev {a b : Nat}
    (h : (natRepr a).data.reverse = (natRepr b).data.reverse) : a = b := by
  apply natRepr_inj
  have hd : (natRepr a).data = (natRepr b).data := by
    have := congrArg List.reverse h
    simpa using this
  show String.mk (natToDigits (a + 1) a) = String.mk (natToDigits (b + 1) b)
  exact congrArg String.mk hd

theorem fingerprint_inj {p1 : String} {s1 t1 d1 : Nat} {p2 : String} {s2 t2 d2 : Nat}
    (h : fingerprint p1 s1 t1 d1 = fingerprint p2 s2 t2 d2) :
    p1 = p2 ∧ s1 = s2 ∧ t1 = t2 ∧ d1 = d2 := by
  have hrev := congrArg (fun s : String => s.data.reverse) h
  simp only [fingerprint_data_rev] at hrev
  have h1 := bar_split _ _ _ _ natRepr_rev_ne_bar natRepr_rev_ne_bar hrev
  have h2 := bar_split _ _ _ _ natRepr_rev_ne_bar natRepr_rev_ne_bar h1.2
  have h3 := bar_split _ _ _ _ natRepr_rev_ne_bar natRepr_rev_ne_bar h2.2
  refine ⟨?_, natRepr_eq_of_data_rev h3.1, natRepr_eq_of_data_rev h2.1,
    natRepr_eq_of_data_rev h1.1⟩
  have hp : p1.data = p2.data := by
    have := congrArg List.reverse h3.2
    simpa using this
  exact congrArg String.mk hp

/-- Amended claim C8 (proved): the thumbnail cache key is a deterministic
function of (resolved path, file size, mtime in nanoseconds, requested max
dimension) — equal inputs give equal keys; and any two inputs differing in at
least one of the four components produce *different fingerprint strings* (the
pre-hash content address).  Distinct fingerprints are only
cryptographically, not mathematically, guaranteed to yield distinct SHA-256
keys (see the counterexample theorem). -/
theorem claim_C8_key_determinism (p1 : String) (s1 t1 d1 : Nat) (p2 : String)
    (s2 t2 d2 : Nat) :
    (p1 = p2 → s1 = s2 → t1 = t2 → d1 = d2 →
      thumbnail_cache_key p1 s1 t1 d1 = thumbnail_cache_key p2 s2 t2 d2) ∧
    (fingerprint p1 s1 t1 d1 = fingerprint p2 s2 t2 d2 →
      p1 = p2 ∧ s1 = s2 ∧ t1 = t2 ∧ d1 = d2) := by
  constructor
  · intro hp hs ht hd
    rw [hp, hs, ht, hd]
  · exact fingerprint_inj

/-- Witness for the amended claim C8 at concrete inputs. -/
theorem claim_C8_witness :
    thumbnail_cache_key "/photos/a.jpg" 100 5 320 =
      thumbnail_cache_key "/photos/a.jpg" 100 5 320 ∧
    ("/photos/a.jpg" : String) = "/photos/a.jpg" ∧ (100 : Nat) = 100 ∧
      (5 : Nat) = 5 ∧ (320 : Nat) = 320 :=
  ⟨(claim_C8_key_determinism "/photos/a.jpg" 100 5 320 "/photos/a.jpg" 100 5 320).1
      rfl rfl rfl rfl,
    (claim_C8_key_determinism "/photos/a.jpg" 100 5 320 "/photos/a.jpg" 100 5 320).2 rfl⟩

end ImageViewer
